import Mathlib

/-!
Sudoku game: validity oracle, backtracking solver and puzzle generator.

A shallow embedding of `sudoku-updatedverxd-final.cpp`.

* The grid `std::vector<std::vector<int>>` of `SIZE` rows of `SIZE` cells is a
  function `Fin 9 → Fin 9 → Int`; a write `grid[row][col] = v` is `setCell`.
* `canPlace`, `solveSudoku`, `generateSudoku` and `isSudokuSolved` are
  translated loop by loop.  A loop that returns early is a `List.all` /
  `List.find?` over the indices in the order the loop visits them.
* `solveSudoku` mutates its argument and recurses; the embedding passes the
  grid explicitly and returns the final grid next to the Boolean.  The
  recursion is driven by a fuel counter, and the totality lemmas show that
  `SIZE * SIZE + 1` levels always suffice.
* `std::rand() % SIZE` is an explicit list of `(row, col)` picks.
* The game loop of `main` is a step function on `grid`, `previousGrid` and
  `moveCounter`, fed with the values `getUserMove` leaves in `row`, `col`, `num`
  and `hintRequested`.
-/

namespace Sudoku

/-! ## Data model -/

/-- The constant `SIZE`. -/
def SIZE : Nat := 9

/-- The constant `EMPTY`. -/
def EMPTY : Int := 0

/-- The grid: nine rows of nine `int` cells. -/
abbrev Grid : Type := Fin 9 → Fin 9 → Int

/-- The enumeration `Difficulty`. -/
inductive Difficulty where
  | EASY
  | MEDIUM
  | HARD
  deriving DecidableEq, Repr

/-- The assignment `grid[row][col] = v`. -/
def setCell (grid : Grid) (row col : Fin 9) (v : Int) : Grid :=
  fun r c => if r = row ∧ c = col then v else grid r c

/-- A grid given by its rows; a missing cell reads as `EMPTY`. -/
def ofRows (rows : List (List Int)) : Grid :=
  fun r c => (rows.getD r.val []).getD c.val EMPTY

/-- The rows of a grid, for display and comparison. -/
def toRows (grid : Grid) : List (List Int) :=
  (List.finRange 9).map fun r => (List.finRange 9).map fun c => grid r c

/-- The grid after `grid.push_back(std::vector<int>(SIZE, EMPTY))` nine times. -/
def emptyGrid : Grid := fun _ _ => EMPTY

/-! ## `canPlace` -/

/-- The index `start + i` of the box loops, where `start = (x / 3) * 3` and `i < 3`. -/
def boxIndex (x : Fin 9) (i : Fin 3) : Fin 9 :=
  ⟨(x.val / 3) * 3 + i.val, by omega⟩

/-- The function `canPlace`: the row-and-column loop, then the 3x3 box loop. -/
def canPlace (grid : Grid) (row col : Fin 9) (num : Int) : Bool :=
  (List.finRange 9).all (fun i => !(grid row i == num || grid i col == num)) &&
  (List.finRange 3).all (fun i =>
    (List.finRange 3).all (fun j => !(grid (boxIndex row i) (boxIndex col j) == num)))

/-! ## Vocabulary of the claims -/

/-- Every cell is `EMPTY` or a digit `1..9`. -/
def CellsInRange (grid : Grid) : Prop :=
  ∀ r c, 0 ≤ grid r c ∧ grid r c ≤ 9

/-- Cell `(r, c)` lies in the 3x3 box of `(row, col)`: rows `[3*(row/3), 3*(row/3)+3)`,
columns `[3*(col/3), 3*(col/3)+3)`. -/
def InBox (row col r c : Fin 9) : Prop :=
  (3 * (row.val / 3) ≤ r.val ∧ r.val < 3 * (row.val / 3) + 3) ∧
  (3 * (col.val / 3) ≤ c.val ∧ c.val < 3 * (col.val / 3) + 3)

/-- Cell `(r, c)` lies in the row, the column or the box of `(row, col)`
(the cell `(row, col)` itself included). -/
def InUnit (row col r c : Fin 9) : Prop :=
  r = row ∨ c = col ∨ InBox row col r c

/-- Cell `(r, c)` is a cell other than `(row, col)` in its row, column or box. -/
def IsPeer (row col r c : Fin 9) : Prop :=
  ¬ (r = row ∧ c = col) ∧ InUnit row col r c

instance (row col r c : Fin 9) : Decidable (InBox row col r c) := by
  unfold InBox; infer_instance

instance (row col r c : Fin 9) : Decidable (InUnit row col r c) := by
  unfold InUnit; infer_instance

instance (row col r c : Fin 9) : Decidable (IsPeer row col r c) := by
  unfold IsPeer; infer_instance

/-! ## `solveSudoku` -/

/-- The cells in the order in which the nested `row` / `col` loops visit them. -/
def allCells : List (Fin 9 × Fin 9) :=
  (List.finRange 9).flatMap fun row => (List.finRange 9).map fun col => (row, col)

/-- The first cell, in loop order, with `grid[row][col] == EMPTY`. -/
def findEmpty (grid : Grid) : Option (Fin 9 × Fin 9) :=
  allCells.find? fun p => grid p.1 p.2 == EMPTY

/-- The values of `num` in `for (int num = 1; num <= SIZE; ++num)`, in order. -/
def digits : List Int :=
  (List.range SIZE).map fun (k : Nat) => (k : Int) + 1

/-- The `num` loop of `solveSudoku` at the empty cell `(row, col)`, over the
candidates still to be tried.  `solve` is the recursive call; `none` means that the
recursive call ran out of fuel. -/
def tryDigits (solve : Grid → Option (Bool × Grid)) (row col : Fin 9) :
    List Int → Grid → Option (Bool × Grid)
  | [], grid => some (false, grid)
  | num :: rest, grid =>
    if canPlace grid row col num then
      match solve (setCell grid row col num) with
      | none => none
      | some (true, grid') => some (true, grid')
      | some (false, grid') => tryDigits solve row col rest (setCell grid' row col EMPTY)
    else tryDigits solve row col rest grid

/-- The function `solveSudoku` with a bound on the recursion depth: the returned
Boolean together with the grid left behind, or `none` when the bound is hit. -/
def solveFuel : Nat → Grid → Option (Bool × Grid)
  | 0, _ => none
  | fuel + 1, grid =>
    match findEmpty grid with
    | none => some (true, grid)
    | some (row, col) => tryDigits (solveFuel fuel) row col digits grid

/-- The function `solveSudoku`, with recursion depth `SIZE * SIZE + 1`. -/
def solveSudoku (grid : Grid) : Option (Bool × Grid) :=
  solveFuel (SIZE * SIZE + 1) grid

/-- The number of cells equal to `EMPTY`. -/
def emptyCount (grid : Grid) : Nat :=
  allCells.countP fun p => grid p.1 p.2 == EMPTY

/-- The number of cells different from `EMPTY`. -/
def filledCount (grid : Grid) : Nat :=
  allCells.countP fun p => !(grid p.1 p.2 == EMPTY)

/-! ## `generateSudoku` and `isSudokuSolved` -/

/-- The `switch (difficulty)` of `generateSudoku`. -/
def numToRemove : Difficulty → Nat
  | .EASY => 40
  | .MEDIUM => 50
  | .HARD => 60

/-- The loop `while (numToRemove > 0)` of `generateSudoku`; each element of the list
is one pair `(std::rand() % SIZE, std::rand() % SIZE)`.  The result is `none` when the
picks run out before the counter reaches zero. -/
def removeCells : Nat → List (Fin 9 × Fin 9) → Grid → Option Grid
  | 0, _, grid => some grid
  | _ + 1, [], _ => none
  | n + 1, (row, col) :: picks, grid =>
    if grid row col ≠ EMPTY then removeCells n picks (setCell grid row col EMPTY)
    else removeCells (n + 1) picks grid

/-- The function `generateSudoku`: clear the grid, call `solveSudoku` on it (the returned
Boolean is ignored), then run the removal loop on the grid the call left. -/
def generateSudoku (difficulty : Difficulty) (picks : List (Fin 9 × Fin 9)) : Option Grid :=
  (solveSudoku emptyGrid).bind fun res => removeCells (numToRemove difficulty) picks res.2

/-- The function `isSudokuSolved`. -/
def isSudokuSolved (grid : Grid) : Bool :=
  allCells.all fun p => !(grid p.1 p.2 == EMPTY)

/-! ## Vocabulary of the claims: valid grids -/

/-- No digit occurs twice among the non-empty cells of any row, column or box. -/
def ValidPartial (grid : Grid) : Prop :=
  ∀ row col r c, IsPeer row col r c → grid row col ≠ EMPTY → grid r c ≠ grid row col

/-- The grid has no `EMPTY` cell. -/
def NoEmpty (grid : Grid) : Prop :=
  ∀ r c, grid r c ≠ EMPTY

/-- The cells of row `r`, left to right. -/
def rowCells (grid : Grid) (r : Fin 9) : List Int :=
  (List.finRange 9).map fun c => grid r c

/-- The cells of column `c`, top to bottom. -/
def colCells (grid : Grid) (c : Fin 9) : List Int :=
  (List.finRange 9).map fun r => grid r c

/-- The position of the `k`-th cell of box `b` (boxes and their cells in row-major order). -/
def boxPos (b k : Fin 9) : Fin 9 × Fin 9 :=
  (⟨3 * (b.val / 3) + k.val / 3, by omega⟩, ⟨3 * (b.val % 3) + k.val % 3, by omega⟩)

/-- The cells of box `b`. -/
def boxCells (grid : Grid) (b : Fin 9) : List Int :=
  (List.finRange 9).map fun k => grid (boxPos b k).1 (boxPos b k).2

/-- The digits `1, 2, ..., 9`. -/
def oneToNine : List Int := [1, 2, 3, 4, 5, 6, 7, 8, 9]

/-- Every row, every column and every box is a permutation of `1..9`. -/
def Solved (grid : Grid) : Prop :=
  (∀ r, (rowCells grid r).Perm oneToNine) ∧
  (∀ c, (colCells grid c).Perm oneToNine) ∧
  (∀ b, (boxCells grid b).Perm oneToNine)

/-- Grid `full` agrees with `grid` on every non-empty cell of `grid`. -/
def Agrees (grid full : Grid) : Prop :=
  ∀ r c, grid r c ≠ EMPTY → full r c = grid r c

instance (grid : Grid) : Decidable (CellsInRange grid) := by
  unfold CellsInRange; infer_instance

instance (grid : Grid) : Decidable (ValidPartial grid) := by
  unfold ValidPartial; infer_instance

instance (grid : Grid) : Decidable (NoEmpty grid) := by
  unfold NoEmpty; infer_instance

instance (grid : Grid) : Decidable (Solved grid) := by
  unfold Solved; infer_instance

instance (grid full : Grid) : Decidable (Agrees grid full) := by
  unfold Agrees; infer_instance

/-- What a successful search leaves behind, for an arbitrary start grid: the filled
cells are untouched and every cell that was empty holds a digit `1..9` that differs
from all other cells of its row, column and box. -/
def Completion (grid full : Grid) : Prop :=
  Agrees grid full ∧
  ∀ row col, grid row col = EMPTY →
    (1 ≤ full row col ∧ full row col ≤ 9) ∧
    ∀ r c, IsPeer row col r c → full r c ≠ full row col

/-- The outcome of a call: success with a completion, or failure with the grid
restored and no completion in existence. -/
def Outcome (grid : Grid) (res : Option (Bool × Grid)) : Prop :=
  (∃ full, res = some (true, full) ∧ Completion grid full) ∨
  (res = some (false, grid) ∧ ∀ full, ¬ Completion grid full)

/-- The classic solved grid: each row is a cyclic shift of `1..9`. -/
def classicGrid : Grid :=
  ofRows [[1, 2, 3, 4, 5, 6, 7, 8, 9],
          [4, 5, 6, 7, 8, 9, 1, 2, 3],
          [7, 8, 9, 1, 2, 3, 4, 5, 6],
          [2, 3, 4, 5, 6, 7, 8, 9, 1],
          [5, 6, 7, 8, 9, 1, 2, 3, 4],
          [8, 9, 1, 2, 3, 4, 5, 6, 7],
          [3, 4, 5, 6, 7, 8, 9, 1, 2],
          [6, 7, 8, 9, 1, 2, 3, 4, 5],
          [9, 1, 2, 3, 4, 5, 6, 7, 8]]

/-- A grid with a single filled cell: a 5 in the top-left corner. -/
def cornerFive : Grid := setCell emptyGrid 0 0 5

/-- The classic grid with its top-left cell erased. -/
def classicErased : Grid := setCell classicGrid 0 0 EMPTY

/-- The classic grid with three cells erased. -/
def classicPuzzle : Grid :=
  setCell (setCell (setCell classicGrid 0 0 EMPTY) 4 4 EMPTY) 8 8 EMPTY

/-- A grid without repeated digits that has no solution: the first two cells of row 0
are empty, the rest of the row holds `3..9`, and column 1 already holds 1 and 2. -/
def stuckGrid : Grid :=
  ofRows [[0, 0, 3, 4, 5, 6, 7, 8, 9],
          [0, 0, 0, 0, 0, 0, 0, 0, 0],
          [0, 0, 0, 0, 0, 0, 0, 0, 0],
          [0, 1, 0, 0, 0, 0, 0, 0, 0],
          [0, 2, 0, 0, 0, 0, 0, 0, 0],
          [0, 0, 0, 0, 0, 0, 0, 0, 0],
          [0, 0, 0, 0, 0, 0, 0, 0, 0],
          [0, 0, 0, 0, 0, 0, 0, 0, 0],
          [0, 0, 0, 0, 0, 0, 0, 0, 0]]

/-- The grid `stuckGrid` with two 7s added to the last row: an invalid grid on which the
search makes tentative assignments and fails. -/
def clashGrid : Grid := setCell (setCell stuckGrid 8 7 7) 8 8 7

/-- The grid the search leaves on `clashGrid`, written as the sequence of writes it
performs: 1 at `(0, 0)`, undone, then 2 at `(0, 0)`, undone. -/
def clashGridAfter : Grid :=
  setCell (setCell (setCell (setCell clashGrid 0 0 1) 0 0 EMPTY) 0 0 2) 0 0 EMPTY

/-- Forty picks for the removal loop: cell `(0, 0)` twice, then the next 39 cells in
row-major order. -/
def easyPicks : List (Fin 9 × Fin 9) := (0, 0) :: allCells.take 40

/-- The classic grid with the 2 of row 0 overwritten by a second 1 and the last cell
erased: row 0 holds the digit 1 twice. -/
def dupGrid : Grid := setCell (setCell classicGrid 0 1 1) 8 8 EMPTY

/-! ## The recursive calls of `solveSudoku` -/

/-- The grids on which the `num` loop at `(row, col)` calls `solveSudoku`, in order. The
loop is `tryDigits`, with each argument of the recursive call recorded. -/
def tryDigitsCalls (solve : Grid → Option (Bool × Grid)) (row col : Fin 9) :
    List Int → Grid → List Grid
  | [], _ => []
  | num :: rest, grid =>
    if canPlace grid row col num then
      setCell grid row col num ::
        match solve (setCell grid row col num) with
        | none => []
        | some (true, _) => []
        | some (false, grid') => tryDigitsCalls solve row col rest (setCell grid' row col EMPTY)
    else tryDigitsCalls solve row col rest grid

/-- The grids on which one call of `solveSudoku` on `grid` directly calls itself, when
the recursive calls run with depth bound `fuel`. -/
def recursiveCalls (fuel : Nat) (grid : Grid) : List Grid :=
  match findEmpty grid with
  | none => []
  | some (row, col) => tryDigitsCalls (solveFuel fuel) row col digits grid

/-! ## The removal loop, one iteration at a time -/

/-- One iteration of `while (numToRemove > 0)` on the state `(numToRemove, grid)` with the
pick `(row, col)`; a state whose counter is zero has left the loop and stays as it is. -/
def removeStep (st : Nat × Grid) (pick : Fin 9 × Fin 9) : Nat × Grid :=
  if st.1 = 0 then st
  else if st.2 pick.1 pick.2 ≠ EMPTY then (st.1 - 1, setCell st.2 pick.1 pick.2 EMPTY)
  else st

/-- The state `(numToRemove, grid)` of `generateSudoku` after the iterations that consume
the given picks. -/
def generateSudokuState (difficulty : Difficulty) (picks : List (Fin 9 × Fin 9)) :
    Option (Nat × Grid) :=
  (solveSudoku emptyGrid).map fun res => picks.foldl removeStep (numToRemove difficulty, res.2)

/-! ## Lexicographic order on grids -/

/-- The 81 cells of a grid read row by row. -/
def cells (grid : Grid) : List Int :=
  allCells.map fun p => grid p.1 p.2

/-- Grid `g` is at most grid `h` in the lexicographic order of the 81 cells read row by
row. -/
def LexLE (g h : Grid) : Prop :=
  cells g = cells h ∨ List.Lex (fun a b : Int => a < b) (cells g) (cells h)

/-- A solved grid: the one the search leaves on the all-empty grid. -/
def firstGrid : Grid :=
  ofRows [[1, 2, 3, 4, 5, 6, 7, 8, 9],
          [4, 5, 6, 7, 8, 9, 1, 2, 3],
          [7, 8, 9, 1, 2, 3, 4, 5, 6],
          [2, 1, 4, 3, 6, 5, 8, 9, 7],
          [3, 6, 5, 8, 9, 7, 2, 1, 4],
          [8, 9, 7, 2, 1, 4, 3, 6, 5],
          [5, 3, 1, 6, 4, 2, 9, 7, 8],
          [6, 4, 2, 9, 7, 8, 5, 3, 1],
          [9, 7, 8, 5, 3, 1, 6, 4, 2]]

/-- The grid `firstGrid` with the digits 1 and 2 exchanged in rows 0 and 3 of columns 0
and 1: a second solved grid. -/
def swappedGrid : Grid :=
  setCell (setCell (setCell (setCell firstGrid 0 0 2) 0 1 1) 3 0 1) 3 1 2

/-- The grid `firstGrid` with the four cells of that rectangle erased: a puzzle with two
solutions. -/
def twoWayPuzzle : Grid :=
  setCell (setCell (setCell (setCell firstGrid 0 0 EMPTY) 0 1 EMPTY) 3 0 EMPTY) 3 1 EMPTY

/-! ## The game loop of `main` -/

/-- The variables of the game loop: `grid`, `previousGrid`, `moveCounter`, and whether the
loop has been left through the `break` after the congratulation. -/
structure GameState where
  grid : Grid
  previousGrid : Grid
  moveCounter : Nat
  won : Bool

/-- An `int` that passed the test `x >= 0 && x < SIZE`, as an index. -/
def toIndex (x : Int) (h : 0 ≤ x ∧ x < 9) : Fin 9 :=
  ⟨x.toNat, by omega⟩

/-- One pass through the body of `while (true)` in `main`, given what `getUserMove` left in
`row`, `col`, `num` and `hintRequested`: a hint only prints; `row == -1` restores
`previousGrid`; otherwise the move is applied when it passes the range test, the
`EMPTY` test and `canPlace`. -/
def gameStep (st : GameState) (row col num : Int) (hintRequested : Bool) : GameState :=
  if hintRequested then st
  else if row = -1 then { st with grid := st.previousGrid }
  else if h : (0 ≤ row ∧ row < 9) ∧ (0 ≤ col ∧ col < 9) then
    if 1 ≤ num ∧ num ≤ 9 ∧ st.grid (toIndex row h.1) (toIndex col h.2) = EMPTY then
      if canPlace st.grid (toIndex row h.1) (toIndex col h.2) num then
        { grid := setCell st.grid (toIndex row h.1) (toIndex col h.2) num
          previousGrid := st.grid
          moveCounter := st.moveCounter + 1
          won := isSudokuSolved (setCell st.grid (toIndex row h.1) (toIndex col h.2) num) }
      else st
    else st
  else st

/-- The states the game loop can be in: it starts from a generated puzzle with
`previousGrid = grid`, and runs its body as long as it has not been left. -/
inductive Reachable : GameState → Prop where
  | start (difficulty : Difficulty) (picks : List (Fin 9 × Fin 9)) (grid : Grid) :
      generateSudoku difficulty picks = some grid → Reachable ⟨grid, grid, 0, false⟩
  | step (st : GameState) (row col num : Int) (hintRequested : Bool) :
      Reachable st → st.won = false → Reachable (gameStep st row col num hintRequested)

/-- What the game loop maintains: both grids have cells in range and no repeated digit,
and the loop is only left on a grid without `EMPTY` cell. -/
def GameInvariant (st : GameState) : Prop :=
  (CellsInRange st.grid ∧ ValidPartial st.grid) ∧
  (CellsInRange st.previousGrid ∧ ValidPartial st.previousGrid) ∧
  (st.won = true → isSudokuSolved st.grid = true)

/-! ## Grids with a repeated digit in a row -/

/-- Outside row `r` the digit `d` does not occur, and no row other than `r` holds a digit
twice. -/
def OtherRowsClean (grid : Grid) (r : Fin 9) (d : Int) : Prop :=
  ∀ r', r' ≠ r →
    (∀ k, grid r' k ≠ d) ∧
    (∀ k k', k ≠ k' → grid r' k ≠ EMPTY → grid r' k ≠ grid r' k')

instance (grid : Grid) (r : Fin 9) (d : Int) : Decidable (OtherRowsClean grid r d) := by
  unfold OtherRowsClean; infer_instance

/-- Two 5s in row 0, at its two ends, and every other cell `EMPTY`. -/
def twoFives : Grid := setCell (setCell emptyGrid 0 0 5) 0 8 5

/-! ## Facts about `canPlace` -/

theorem inBox_iff_boxIndex (row col r c : Fin 9) :
    InBox row col r c ↔ ∃ i j : Fin 3, r = boxIndex row i ∧ c = boxIndex col j := by
  constructor
  · rintro ⟨⟨h1, h2⟩, h3, h4⟩
    refine ⟨⟨r.val - 3 * (row.val / 3), by omega⟩, ⟨c.val - 3 * (col.val / 3), by omega⟩, ?_, ?_⟩
    · apply Fin.ext; simp only [boxIndex]; omega
    · apply Fin.ext; simp only [boxIndex]; omega
  · rintro ⟨i, j, rfl, rfl⟩
    simp only [InBox, boxIndex]
    have hi := i.isLt
    have hj := j.isLt
    have hr := row.isLt
    have hc := col.isLt
    omega

/-- The result of `canPlace` is `true` exactly when no cell of the row, the column
or the box of `(row, col)` holds `num`. -/
theorem canPlace_eq_true_iff (grid : Grid) (row col : Fin 9) (num : Int) :
    canPlace grid row col num = true ↔ ∀ r c, InUnit row col r c → grid r c ≠ num := by
  simp only [canPlace, Bool.and_eq_true, List.all_eq_true, List.mem_finRange, true_implies,
    Bool.not_eq_true', Bool.or_eq_false_iff, beq_eq_false_iff_ne, ne_eq]
  constructor
  · rintro ⟨h1, h2⟩ r c hu
    rcases hu with rfl | rfl | hb
    · exact (h1 c).1
    · exact (h1 r).2
    · obtain ⟨i, j, rfl, rfl⟩ := (inBox_iff_boxIndex row col r c).1 hb
      exact h2 i j
  · intro h
    refine ⟨fun i => ⟨h row i (Or.inl rfl), h i col (Or.inr (Or.inl rfl))⟩, fun i j => ?_⟩
    exact h _ _ (Or.inr (Or.inr ((inBox_iff_boxIndex row col _ _).2 ⟨i, j, rfl, rfl⟩)))

theorem canPlace_eq_false_iff (grid : Grid) (row col : Fin 9) (num : Int) :
    canPlace grid row col num = false ↔ ∃ r c, InUnit row col r c ∧ grid r c = num := by
  rw [← Bool.not_eq_true, canPlace_eq_true_iff]
  push_neg
  rfl

/-! ## Grid updates, the cell list and the empty-cell count -/

theorem setCell_same (grid : Grid) (row col : Fin 9) (v : Int) :
    setCell grid row col v row col = v := by
  simp [setCell]

theorem setCell_other (grid : Grid) (row col r c : Fin 9) (v : Int)
    (h : ¬ (r = row ∧ c = col)) : setCell grid row col v r c = grid r c := by
  simp [setCell, h]

/-- Writing a digit into an empty cell and resetting the cell gives the grid back. -/
theorem setCell_undo (grid : Grid) (row col : Fin 9) (v : Int) (h : grid row col = EMPTY) :
    setCell (setCell grid row col v) row col EMPTY = grid := by
  funext r c
  by_cases hrc : r = row ∧ c = col
  · obtain ⟨rfl, rfl⟩ := hrc
    simp [setCell, h]
  · simp [setCell, hrc]

theorem mem_allCells (p : Fin 9 × Fin 9) : p ∈ allCells := by
  obtain ⟨r, c⟩ := p
  simp [allCells, List.mem_flatMap, List.mem_finRange]

theorem nodup_allCells : allCells.Nodup := by decide

theorem length_allCells : allCells.length = 81 := by rfl

theorem findEmpty_some {grid : Grid} {row col : Fin 9} (h : findEmpty grid = some (row, col)) :
    grid row col = EMPTY := by
  have := List.find?_some h
  simpa using this

theorem findEmpty_none {grid : Grid} (h : findEmpty grid = none) : NoEmpty grid := by
  intro r c
  have := (List.find?_eq_none.1 h) (r, c) (mem_allCells _)
  simpa using this

theorem mem_digits (d : Int) : d ∈ digits ↔ 1 ≤ d ∧ d ≤ 9 := by
  simp only [digits, SIZE, List.mem_map, List.mem_range]
  constructor
  · rintro ⟨k, hk, rfl⟩
    omega
  · rintro ⟨h1, h2⟩
    exact ⟨(d - 1).toNat, by omega, by omega⟩

/-- Changing a predicate from true to false at one element of a duplicate-free list
lowers the count by one. -/
theorem countP_flip {α : Type} (p q : α → Bool) (a : α) :
    ∀ l : List α, l.Nodup → a ∈ l → p a = true → q a = false →
      (∀ x, x ≠ a → q x = p x) → l.countP q + 1 = l.countP p := by
  intro l
  induction l with
  | nil => intro _ h; simp at h
  | cons x xs ih =>
    intro hnd hmem hp hq hrest
    rw [List.nodup_cons] at hnd
    by_cases hx : x = a
    · subst hx
      have hsame : xs.countP q = xs.countP p := by
        apply List.countP_congr
        intro y hy
        have hne : y ≠ x := fun e => hnd.1 (e ▸ hy)
        rw [hrest y hne]
      simp [List.countP_cons, hp, hq, hsame]
    · have hmem' : a ∈ xs := by
        rcases List.mem_cons.1 hmem with h | h
        · exact absurd h.symm hx
        · exact h
      have := ih hnd.2 hmem' hp hq hrest
      rw [List.countP_cons, List.countP_cons, hrest x hx]
      omega

theorem emptyCount_le (grid : Grid) : emptyCount grid ≤ 81 := by
  have := List.countP_le_length (fun p : Fin 9 × Fin 9 => grid p.1 p.2 == EMPTY) (l := allCells)
  rw [length_allCells] at this
  exact this

/-- Filling an empty cell with a non-empty value lowers the number of empty cells by one. -/
theorem emptyCount_fill (grid : Grid) (row col : Fin 9) (v : Int)
    (h : grid row col = EMPTY) (hv : v ≠ EMPTY) :
    emptyCount (setCell grid row col v) + 1 = emptyCount grid := by
  unfold emptyCount
  apply countP_flip _ _ (row, col) allCells nodup_allCells (mem_allCells _)
  · simp [h]
  · simp [setCell_same, hv]
  · rintro ⟨r, c⟩ hne
    have : ¬ (r = row ∧ c = col) := fun e => hne (by rw [e.1, e.2])
    simp [setCell_other _ _ _ _ _ _ this]

/-- Erasing a non-empty cell raises the number of empty cells by one. -/
theorem emptyCount_erase (grid : Grid) (row col : Fin 9) (h : grid row col ≠ EMPTY) :
    emptyCount (setCell grid row col EMPTY) = emptyCount grid + 1 := by
  unfold emptyCount
  symm
  apply countP_flip _ _ (row, col) allCells nodup_allCells (mem_allCells _)
  · simp [setCell_same]
  · simp [h]
  · rintro ⟨r, c⟩ hne
    have : ¬ (r = row ∧ c = col) := fun e => hne (by rw [e.1, e.2])
    simp [setCell_other _ _ _ _ _ _ this]

theorem isPeer_symm {row col r c : Fin 9} (h : IsPeer row col r c) : IsPeer r c row col := by
  simp only [IsPeer, InUnit, InBox, Fin.ext_iff] at *
  omega

/-! ## The search: what `solveSudoku` returns on an arbitrary grid -/

/-- A completion of the grid with a digit written into an empty cell that `canPlace`
accepted is a completion of the grid itself. -/
theorem completion_of_setCell {grid full : Grid} {row col : Fin 9} {d : Int}
    (hempty : grid row col = EMPTY) (hd : 1 ≤ d ∧ d ≤ 9)
    (hcan : canPlace grid row col d = true)
    (h : Completion (setCell grid row col d) full) : Completion grid full := by
  obtain ⟨hag, hfill⟩ := h
  have hdne : d ≠ EMPTY := by simp only [EMPTY]; omega
  have hfull : full row col = d := by
    have := hag row col (by rw [setCell_same]; exact hdne)
    rwa [setCell_same] at this
  have hagree : Agrees grid full := by
    intro r c hne
    have hrc : ¬ (r = row ∧ c = col) := fun e => hne (by rw [e.1, e.2]; exact hempty)
    have := hag r c (by rw [setCell_other _ _ _ _ _ _ hrc]; exact hne)
    rwa [setCell_other _ _ _ _ _ _ hrc] at this
  refine ⟨hagree, ?_⟩
  intro r c hrc0
  by_cases hrc : r = row ∧ c = col
  · obtain ⟨rfl, rfl⟩ := hrc
    rw [hfull]
    refine ⟨hd, ?_⟩
    intro r' c' hpeer
    by_cases h0 : grid r' c' = EMPTY
    · have hne : ¬ (r' = r ∧ c' = c) := hpeer.1
      have := (hfill r' c' (by rw [setCell_other _ _ _ _ _ _ hne]; exact h0)).2 r c
        (isPeer_symm hpeer)
      rw [hfull] at this
      exact fun e => this e.symm
    · rw [hagree r' c' h0]
      exact (canPlace_eq_true_iff grid r c d).1 hcan r' c' hpeer.2
  · exact hfill r c (by rw [setCell_other _ _ _ _ _ _ hrc]; exact hrc0)

/-- A completion of the grid is a completion of the grid with one of its own digits
already written into an empty cell. -/
theorem completion_setCell_of {grid full : Grid} {row col : Fin 9}
    (hempty : grid row col = EMPTY) (h : Completion grid full) :
    Completion (setCell grid row col (full row col)) full := by
  obtain ⟨hag, hfill⟩ := h
  constructor
  · intro r c hne
    by_cases hrc : r = row ∧ c = col
    · obtain ⟨rfl, rfl⟩ := hrc
      rw [setCell_same]
    · rw [setCell_other _ _ _ _ _ _ hrc] at hne ⊢
      exact hag r c hne
  · intro r c h0
    by_cases hrc : r = row ∧ c = col
    · obtain ⟨rfl, rfl⟩ := hrc
      exact hfill r c hempty
    · rw [setCell_other _ _ _ _ _ _ hrc] at h0
      exact hfill r c h0

/-- A digit that `canPlace` rejects at an empty cell is not the digit of any completion. -/
theorem completion_ne_of_canPlace_false {grid full : Grid} {row col : Fin 9} {d : Int}
    (hempty : grid row col = EMPTY) (hd : d ≠ EMPTY)
    (hcan : canPlace grid row col d = false) (h : Completion grid full) :
    full row col ≠ d := by
  obtain ⟨r, c, hu, hrc⟩ := (canPlace_eq_false_iff grid row col d).1 hcan
  have hne : ¬ (r = row ∧ c = col) := by
    rintro ⟨rfl, rfl⟩
    exact hd (hrc ▸ hempty)
  have h1 : full r c = d := by
    rw [h.1 r c (by rw [hrc]; exact hd), hrc]
  have h2 := (h.2 row col hempty).2 r c ⟨hne, hu⟩
  rw [h1] at h2
  exact fun e => h2 e.symm

/-- The `num` loop, given that every recursive call behaves. -/
theorem tryDigits_outcome (solve : Grid → Option (Bool × Grid)) (grid : Grid)
    (row col : Fin 9) (hempty : grid row col = EMPTY)
    (hsolve : ∀ d, 1 ≤ d ∧ d ≤ 9 →
      Outcome (setCell grid row col d) (solve (setCell grid row col d))) :
    ∀ nums : List Int, (∀ d ∈ nums, 1 ≤ d ∧ d ≤ 9) →
      (∃ full, tryDigits solve row col nums grid = some (true, full) ∧ Completion grid full) ∨
      (tryDigits solve row col nums grid = some (false, grid) ∧
        ∀ full, Completion grid full → full row col ∉ nums) := by
  intro nums
  induction nums with
  | nil =>
    intro _
    right
    exact ⟨rfl, fun _ _ => List.not_mem_nil _⟩
  | cons d rest ih =>
    intro hr
    have hd : 1 ≤ d ∧ d ≤ 9 := hr d (List.mem_cons_self _ _)
    have hdne : d ≠ EMPTY := by simp only [EMPTY]; omega
    have ih' := ih (fun x hx => hr x (List.mem_cons_of_mem _ hx))
    by_cases hcan : canPlace grid row col d = true
    · rcases hsolve d hd with ⟨full, hres, hcomp⟩ | ⟨hres, hnone⟩
      · left
        refine ⟨full, ?_, completion_of_setCell hempty hd hcan hcomp⟩
        simp [tryDigits, hcan, hres]
      · have hstep : tryDigits solve row col (d :: rest) grid
            = tryDigits solve row col rest grid := by
          simp [tryDigits, hcan, hres, setCell_undo grid row col d hempty]
        rw [hstep]
        rcases ih' with h | ⟨h1, h2⟩
        · exact Or.inl h
        · right
          refine ⟨h1, fun full hfull hmem => ?_⟩
          rcases List.mem_cons.1 hmem with e | e
          · exact hnone full (e ▸ completion_setCell_of hempty hfull)
          · exact h2 full hfull e
    · have hcan' : canPlace grid row col d = false := by simpa using hcan
      have hstep : tryDigits solve row col (d :: rest) grid
          = tryDigits solve row col rest grid := by
        simp [tryDigits, hcan']
      rw [hstep]
      rcases ih' with h | ⟨h1, h2⟩
      · exact Or.inl h
      · right
        refine ⟨h1, fun full hfull hmem => ?_⟩
        rcases List.mem_cons.1 hmem with e | e
        · exact completion_ne_of_canPlace_false hempty hdne hcan' hfull e
        · exact h2 full hfull e

/-- With more fuel than empty cells, the search returns, and it returns `true` with a
completion of its input or `false` with the input restored and no completion existing. -/
theorem solveFuel_outcome : ∀ (fuel : Nat) (grid : Grid), emptyCount grid < fuel →
    Outcome grid (solveFuel fuel grid) := by
  intro fuel
  induction fuel with
  | zero => intro grid h; omega
  | succ fuel ih =>
    intro grid hlt
    cases hfind : findEmpty grid with
    | none =>
      left
      refine ⟨grid, by simp [solveFuel, hfind], fun _ _ _ => rfl, fun r c h0 => ?_⟩
      exact absurd h0 (findEmpty_none hfind r c)
    | some p =>
      obtain ⟨row, col⟩ := p
      have hempty := findEmpty_some hfind
      have hsolve : ∀ d, 1 ≤ d ∧ d ≤ 9 →
          Outcome (setCell grid row col d) (solveFuel fuel (setCell grid row col d)) := by
        intro d hd
        apply ih
        have := emptyCount_fill grid row col d hempty (by simp only [EMPTY]; omega)
        omega
      have hrun : solveFuel (fuel + 1) grid
          = tryDigits (solveFuel fuel) row col digits grid := by
        simp [solveFuel, hfind]
      rw [hrun]
      rcases tryDigits_outcome (solveFuel fuel) grid row col hempty hsolve digits
          (fun d hd => (mem_digits d).1 hd) with h | ⟨h1, h2⟩
      · exact Or.inl h
      · right
        refine ⟨h1, fun full hfull => h2 full hfull ?_⟩
        exact (mem_digits _).2 (hfull.2 row col hempty).1

theorem solveSudoku_outcome (grid : Grid) : Outcome grid (solveSudoku grid) := by
  apply solveFuel_outcome
  have := emptyCount_le grid
  simp only [SIZE]
  omega

/-! ## The depth bound does not matter -/

/-- The `num` loop gives the same result when the recursive call is replaced by one
that returns the same results on more inputs. -/
theorem tryDigits_mono (s1 s2 : Grid → Option (Bool × Grid)) (row col : Fin 9)
    (h : ∀ g r, s1 g = some r → s2 g = some r) :
    ∀ (nums : List Int) (grid : Grid) (res : Bool × Grid),
      tryDigits s1 row col nums grid = some res → tryDigits s2 row col nums grid = some res := by
  intro nums
  induction nums with
  | nil => intro grid res hres; exact hres
  | cons d rest ih =>
    intro grid res hres
    by_cases hcan : canPlace grid row col d = true
    · cases hs : s1 (setCell grid row col d) with
      | none => simp [tryDigits, hcan, hs] at hres
      | some r =>
        obtain ⟨b, g'⟩ := r
        have hs2 := h _ _ hs
        cases b with
        | true =>
          simp only [tryDigits, hcan, hs, if_true] at hres
          simp only [tryDigits, hcan, hs2, if_true]
          exact hres
        | false =>
          simp only [tryDigits, hcan, hs, if_true] at hres
          simp only [tryDigits, hcan, hs2, if_true]
          exact ih _ _ hres
    · simp only [tryDigits, hcan, if_false, Bool.false_eq_true] at hres ⊢
      exact ih _ _ hres

/-- A call that returns within some depth bound returns the same with a larger bound. -/
theorem solveFuel_mono : ∀ (n m : Nat), n ≤ m → ∀ (grid : Grid) (res : Bool × Grid),
    solveFuel n grid = some res → solveFuel m grid = some res := by
  intro n
  induction n with
  | zero => intro m _ grid res h; simp [solveFuel] at h
  | succ n ih =>
    intro m hm grid res h
    obtain ⟨m', rfl⟩ : ∃ m', m = m' + 1 := ⟨m - 1, by omega⟩
    cases hfind : findEmpty grid with
    | none =>
      simp only [solveFuel, hfind] at h ⊢
      exact h
    | some p =>
      obtain ⟨row, col⟩ := p
      simp only [solveFuel, hfind] at h ⊢
      exact tryDigits_mono _ _ row col (ih m' (by omega)) _ _ _ h

/-- Every depth bound above the number of empty cells gives the result of `solveSudoku`. -/
theorem solveFuel_eq_solveSudoku (fuel : Nat) (grid : Grid) (h : emptyCount grid < fuel) :
    solveFuel fuel grid = solveSudoku grid := by
  have hres : ∃ res, solveFuel fuel grid = some res := by
    rcases solveFuel_outcome fuel grid h with ⟨full, h1, _⟩ | ⟨h1, _⟩
    · exact ⟨_, h1⟩
    · exact ⟨_, h1⟩
  obtain ⟨res, hres⟩ := hres
  have hle := emptyCount_le grid
  rcases Nat.le_total fuel (SIZE * SIZE + 1) with hcmp | hcmp
  · rw [hres]
    exact (solveFuel_mono fuel _ hcmp grid res hres).symm
  · have hsome : ∃ res', solveSudoku grid = some res' := by
      rcases solveSudoku_outcome grid with ⟨full, h1, _⟩ | ⟨h1, _⟩
      · exact ⟨_, h1⟩
      · exact ⟨_, h1⟩
    obtain ⟨res', hres'⟩ := hsome
    rw [hres']
    exact solveFuel_mono _ fuel hcmp grid res' hres'

/-! ## Rows, columns and boxes as permutations of `1..9` -/

/-- Nine values form a permutation of `1..9` exactly when they are digits and distinct. -/
theorem perm_oneToNine_iff (f : Fin 9 → Int) :
    ((List.finRange 9).map f).Perm oneToNine ↔
      (∀ k, 1 ≤ f k ∧ f k ≤ 9) ∧ Function.Injective f := by
  constructor
  · intro h
    constructor
    · intro k
      have hk : f k ∈ oneToNine :=
        h.mem_iff.1 (List.mem_map.2 ⟨k, List.mem_finRange k, rfl⟩)
      simp only [oneToNine, List.mem_cons, List.mem_singleton, List.not_mem_nil, or_false] at hk
      omega
    · have hnd : ((List.finRange 9).map f).Nodup := h.nodup_iff.2 (by decide)
      intro a b hab
      exact List.inj_on_of_nodup_map hnd (List.mem_finRange a) (List.mem_finRange b) hab
  · rintro ⟨hrange, hinj⟩
    have hnd : ((List.finRange 9).map f).Nodup := (List.nodup_finRange 9).map hinj
    have hsub : (List.finRange 9).map f ⊆ oneToNine := by
      intro x hx
      obtain ⟨k, _, rfl⟩ := List.mem_map.1 hx
      have := hrange k
      simp only [oneToNine, List.mem_cons, List.mem_singleton, List.not_mem_nil, or_false]
      omega
    exact (List.subperm_of_subset hnd hsub).perm_of_length_le (by simp [oneToNine])

/-- A grid is solved exactly when every cell is a digit and every cell differs from
all other cells of its row, column and box. -/
theorem solved_iff (grid : Grid) :
    Solved grid ↔ (∀ r c, 1 ≤ grid r c ∧ grid r c ≤ 9) ∧
      ∀ row col r c, IsPeer row col r c → grid r c ≠ grid row col := by
  simp only [Solved, rowCells, colCells, boxCells, perm_oneToNine_iff]
  constructor
  · rintro ⟨hrow, hcol, hbox⟩
    refine ⟨fun r c => (hrow r).1 c, ?_⟩
    rintro row col r c ⟨hne, hu⟩ heq
    rcases hu with rfl | rfl | hb
    · exact hne ⟨rfl, (hrow r).2 heq⟩
    · exact hne ⟨(hcol c).2 heq, rfl⟩
    · have hrow9 := row.isLt
      have hcol9 := col.isLt
      have hr9 := r.isLt
      have hc9 := c.isLt
      simp only [InBox] at hb
      let b : Fin 9 := ⟨3 * (row.val / 3) + col.val / 3, by omega⟩
      let k : Fin 9 := ⟨3 * (row.val % 3) + col.val % 3, by omega⟩
      let k' : Fin 9 := ⟨3 * (r.val % 3) + c.val % 3, by omega⟩
      have e1 : boxPos b k = (row, col) := by
        simp only [boxPos, b, k, Prod.mk.injEq, Fin.ext_iff]
        omega
      have e2 : boxPos b k' = (r, c) := by
        simp only [boxPos, b, k', Prod.mk.injEq, Fin.ext_iff]
        omega
      have hkk : k' = k := by
        apply (hbox b).2
        show grid (boxPos b k').1 (boxPos b k').2 = grid (boxPos b k).1 (boxPos b k).2
        rw [e1, e2]
        exact heq
      rw [hkk, e1] at e2
      exact hne ⟨(Prod.mk.inj e2).1.symm, (Prod.mk.inj e2).2.symm⟩
  · rintro ⟨hrange, hpeer⟩
    refine ⟨fun r => ⟨fun c => hrange r c, ?_⟩, fun c => ⟨fun r => hrange r c, ?_⟩,
      fun b => ⟨fun k => hrange _ _, ?_⟩⟩
    · intro c c' heq
      by_contra hne
      exact hpeer r c' r c ⟨fun e => hne e.2, Or.inl rfl⟩ heq
    · intro r r' heq
      by_contra hne
      exact hpeer r' c r c ⟨fun e => hne e.1, Or.inr (Or.inl rfl)⟩ heq
    · intro k k' heq
      by_contra hne
      refine hpeer (boxPos b k').1 (boxPos b k').2 (boxPos b k).1 (boxPos b k).2 ⟨?_, ?_⟩ heq
      · have hb9 := b.isLt
        have hk9 := k.isLt
        have hk9' := k'.isLt
        have hne' : k.val ≠ k'.val := fun e => hne (Fin.ext e)
        simp only [boxPos, Fin.ext_iff]
        omega
      · right; right
        have hb9 := b.isLt
        have hk9 := k.isLt
        have hk9' := k'.isLt
        simp only [InBox, boxPos]
        omega

theorem solved_noEmpty {grid : Grid} (h : Solved grid) : NoEmpty grid := by
  intro r c
  have := ((solved_iff grid).1 h).1 r c
  simp only [EMPTY]
  omega

/-- For a start grid with cells in range and no repeated digit, the grids a successful
search can leave are exactly the solved grids that agree with the start grid. -/
theorem completion_iff_solved {grid : Grid} (hr : CellsInRange grid) (hv : ValidPartial grid)
    (full : Grid) : Completion grid full ↔ Agrees grid full ∧ Solved full := by
  rw [solved_iff]
  constructor
  · rintro ⟨hag, hfill⟩
    refine ⟨hag, fun r c => ?_, fun row col r c hp => ?_⟩
    · by_cases h0 : grid r c = EMPTY
      · exact (hfill r c h0).1
      · rw [hag r c h0]
        have := hr r c
        simp only [EMPTY] at h0
        omega
    · by_cases h0 : grid row col = EMPTY
      · exact (hfill row col h0).2 r c hp
      · by_cases h1 : grid r c = EMPTY
        · exact fun e => (hfill r c h1).2 row col (isPeer_symm hp) e.symm
        · rw [hag r c h1, hag row col h0]
          exact hv row col r c hp h0
  · rintro ⟨hag, hrange, hpeer⟩
    exact ⟨hag, fun row col _ => ⟨hrange row col, fun r c hp => hpeer row col r c hp⟩⟩

/-! ## Comparing grids row by row -/

theorem ofRows_toRows (grid : Grid) : ofRows (toRows grid) = grid := by
  funext r c
  fin_cases r <;> fin_cases c <;> rfl

theorem eq_of_toRows_eq {g h : Grid} (e : toRows g = toRows h) : g = h := by
  rw [← ofRows_toRows g, ← ofRows_toRows h, e]

/-- The result of a call can be read off from the rows of the grid it leaves. -/
theorem solveSudoku_eq_of_rows {grid full : Grid} {b : Bool}
    (h : (solveSudoku grid).map (fun p => (p.1, toRows p.2)) = some (b, toRows full)) :
    solveSudoku grid = some (b, full) := by
  cases hs : solveSudoku grid with
  | none => rw [hs] at h; simp at h
  | some p =>
    obtain ⟨b', g'⟩ := p
    rw [hs] at h
    simp only [Option.map_some', Option.some.injEq, Prod.mk.injEq] at h
    rw [h.1, eq_of_toRows_eq h.2]

theorem cellsInRange_emptyGrid : CellsInRange emptyGrid := by
  intro r c
  simp [emptyGrid, EMPTY]

theorem validPartial_emptyGrid : ValidPartial emptyGrid := by
  intro row col r c _ h
  exact absurd rfl h

/-- The solver succeeds on the all-empty grid and leaves a solved grid. -/
theorem solveSudoku_emptyGrid :
    ∃ full, solveSudoku emptyGrid = some (true, full) ∧ Solved full := by
  rcases solveSudoku_outcome emptyGrid with ⟨full, h, hc⟩ | ⟨_, hnone⟩
  · exact ⟨full, h,
      ((completion_iff_solved cellsInRange_emptyGrid validPartial_emptyGrid full).1 hc).2⟩
  · exfalso
    apply hnone classicGrid
    rw [completion_iff_solved cellsInRange_emptyGrid validPartial_emptyGrid]
    exact ⟨fun r c h => absurd rfl h, by decide⟩

/-! ## The validity oracle -/

/-- C1 (as stated, refuted): on the grid whose only filled cell is a 5 at `(0, 0)`,
`canPlace(grid, 0, 0, 5)` returns false although no other cell of row 0, column 0 or
the top-left box holds 5; on the all-empty grid the same call returns true, so the
value stored in the target cell does influence the result. -/
theorem canPlace_target_cell_counterexample :
    CellsInRange cornerFive ∧
    canPlace cornerFive 0 0 5 = false ∧
    (¬ ∃ r c, IsPeer 0 0 r c ∧ cornerFive r c = 5) ∧
    canPlace emptyGrid 0 0 5 = true := by
  decide

/-- C1 (amended): for every grid, cell and number, `canPlace` returns false if and only
if the number is stored in the target cell itself or occurs in some other cell of the
same row, the same column or the same 3x3 box. -/
theorem canPlace_false_iff_target_or_peer (grid : Grid) (row col : Fin 9) (num : Int) :
    canPlace grid row col num = false ↔
      grid row col = num ∨ ∃ r c, IsPeer row col r c ∧ grid r c = num := by
  rw [canPlace_eq_false_iff]
  constructor
  · rintro ⟨r, c, hu, h⟩
    by_cases hrc : r = row ∧ c = col
    · obtain ⟨rfl, rfl⟩ := hrc
      exact Or.inl h
    · exact Or.inr ⟨r, c, ⟨hrc, hu⟩, h⟩
  · rintro (h | ⟨r, c, hp, h⟩)
    · exact ⟨row, col, Or.inl rfl, h⟩
    · exact ⟨r, c, hp.2, h⟩

/-- C2: when the target cell is `EMPTY` and `d` is a digit `1..9`, `canPlace` returns
false exactly when some other cell of the row, column or box holds `d` (in particular
whenever one does), and returns true whenever no cell of the row, column and box
holds `d`. -/
theorem canPlace_on_empty_cell (grid : Grid) (row col : Fin 9) (d : Int)
    (hempty : grid row col = EMPTY) (h1 : 1 ≤ d) (h9 : d ≤ 9) :
    ((∃ r c, IsPeer row col r c ∧ grid r c = d) → canPlace grid row col d = false) ∧
    ((∀ r c, InUnit row col r c → grid r c ≠ d) → canPlace grid row col d = true) ∧
    (canPlace grid row col d = false ↔ ∃ r c, IsPeer row col r c ∧ grid r c = d) := by
  have hne : grid row col ≠ d := by
    rw [hempty]; simp only [EMPTY]; omega
  have hiff : canPlace grid row col d = false ↔ ∃ r c, IsPeer row col r c ∧ grid r c = d := by
    rw [canPlace_eq_false_iff]
    constructor
    · rintro ⟨r, c, hu, h⟩
      refine ⟨r, c, ⟨?_, hu⟩, h⟩
      rintro ⟨rfl, rfl⟩
      exact hne h
    · rintro ⟨r, c, hp, h⟩
      exact ⟨r, c, hp.2, h⟩
  exact ⟨hiff.2, (canPlace_eq_true_iff grid row col d).2, hiff⟩

/-- C2 at the classic grid with cell `(0, 0)` erased and the digit 4, which column 0
holds at `(1, 0)`. -/
theorem canPlace_on_empty_cell_witness :
    classicErased 0 0 = EMPTY ∧ canPlace classicErased 0 0 4 = false ∧
    (∃ r c, IsPeer 0 0 r c ∧ classicErased r c = 4) :=
  have h := canPlace_on_empty_cell classicErased 0 0 4 (by decide) (by decide) (by decide)
  ⟨by decide, h.1 ⟨1, 0, by decide, by decide⟩, ⟨1, 0, by decide, by decide⟩⟩

/-- C10: in a grid whose rows, columns and boxes are permutations of `1..9`, after
erasing cell `(r, c)` the oracle accepts the erased digit at `(r, c)` and rejects every
digit present elsewhere in row `r`, that is, every other digit `1..9`. -/
theorem canPlace_after_erase (grid : Grid) (hsolved : Solved grid) (r c : Fin 9) :
    canPlace (setCell grid r c EMPTY) r c (grid r c) = true ∧
    (∀ d c', c' ≠ c → grid r c' = d → canPlace (setCell grid r c EMPTY) r c d = false) ∧
    (∀ d, 1 ≤ d → d ≤ 9 → d ≠ grid r c →
      canPlace (setCell grid r c EMPTY) r c d = false) := by
  obtain ⟨hrange, hpeer⟩ := (solved_iff grid).1 hsolved
  have hrow : ∀ d c', c' ≠ c → grid r c' = d →
      canPlace (setCell grid r c EMPTY) r c d = false := by
    intro d c' hc hd
    rw [canPlace_eq_false_iff]
    refine ⟨r, c', Or.inl rfl, ?_⟩
    rw [setCell_other _ _ _ _ _ _ (fun e => hc e.2)]
    exact hd
  refine ⟨?_, hrow, ?_⟩
  · rw [canPlace_eq_true_iff]
    intro r' c' hu
    by_cases hrc : r' = r ∧ c' = c
    · obtain ⟨rfl, rfl⟩ := hrc
      rw [setCell_same]
      have := hrange r' c'
      simp only [EMPTY]
      omega
    · rw [setCell_other _ _ _ _ _ _ hrc]
      exact hpeer r c r' c' ⟨hrc, hu⟩
  · intro d h1 h9 hne
    have hmem : d ∈ rowCells grid r := by
      apply (hsolved.1 r).mem_iff.2
      simp only [oneToNine, List.mem_cons, List.mem_singleton, List.not_mem_nil, or_false]
      omega
    obtain ⟨c', _, hc'⟩ := List.mem_map.1 hmem
    refine hrow d c' ?_ hc'
    rintro rfl
    exact hne hc'.symm

/-- C10 at the classic grid and cell `(0, 0)`: the erased digit 1 is accepted and the
digit 2, present at `(0, 1)`, is rejected. -/
theorem canPlace_after_erase_witness :
    Solved classicGrid ∧
    canPlace (setCell classicGrid 0 0 EMPTY) 0 0 1 = true ∧
    canPlace (setCell classicGrid 0 0 EMPTY) 0 0 2 = false :=
  have h := canPlace_after_erase classicGrid (by decide) 0 0
  ⟨by decide, h.1, h.2.2 2 (by decide) (by decide) (by decide)⟩

/-! ## The solver -/

/-- C3: on the all-`EMPTY` grid `solveSudoku` returns true and leaves a grid in which
every row, every column and every 3x3 box is a permutation of `1..9`. -/
theorem solveSudoku_empty_grid_solved :
    ∃ full, solveSudoku emptyGrid = some (true, full) ∧ Solved full :=
  solveSudoku_emptyGrid

/-- C4: on a grid with cells in `{EMPTY, 1..9}` and no digit twice in a row, column or
box, a call that returns true leaves a grid without `EMPTY` cell in which every row,
column and box is a permutation of `1..9`. -/
theorem solveSudoku_true_solved (grid full : Grid) (hr : CellsInRange grid)
    (hv : ValidPartial grid) (h : solveSudoku grid = some (true, full)) :
    NoEmpty full ∧ Solved full := by
  rcases solveSudoku_outcome grid with ⟨full', h', hc⟩ | ⟨h', _⟩
  · rw [h] at h'
    simp only [Option.some.injEq, Prod.mk.injEq, true_and] at h'
    subst h'
    have hs := ((completion_iff_solved hr hv full).1 hc).2
    exact ⟨solved_noEmpty hs, hs⟩
  · rw [h] at h'
    simp at h'

/-- C4 at the classic grid with three cells erased: the solver returns true and leaves
the classic grid. -/
theorem solveSudoku_true_solved_witness :
    CellsInRange classicPuzzle ∧ ValidPartial classicPuzzle ∧
    solveSudoku classicPuzzle = some (true, classicGrid) ∧
    NoEmpty classicGrid ∧ Solved classicGrid :=
  have hrun : solveSudoku classicPuzzle = some (true, classicGrid) :=
    solveSudoku_eq_of_rows (by decide)
  ⟨by decide, by decide, hrun,
    solveSudoku_true_solved classicPuzzle classicGrid (by decide) (by decide) hrun⟩

/-- C5: on a grid with cells in `{EMPTY, 1..9}` and no digit twice in a row, column or
box, `solveSudoku` returns, and it returns false if and only if no grid whose rows,
columns and boxes are permutations of `1..9` agrees with the input on its non-empty
cells; when such a grid exists the call returns true. -/
theorem solveSudoku_false_iff_unsolvable (grid : Grid) (hr : CellsInRange grid)
    (hv : ValidPartial grid) :
    (∃ b full, solveSudoku grid = some (b, full)) ∧
    ((∃ full, solveSudoku grid = some (false, full)) ↔
      ¬ ∃ sol, Solved sol ∧ Agrees grid sol) ∧
    ((∃ sol, Solved sol ∧ Agrees grid sol) → ∃ full, solveSudoku grid = some (true, full)) := by
  rcases solveSudoku_outcome grid with ⟨full, h, hc⟩ | ⟨h, hnone⟩
  · have hsol : ∃ sol, Solved sol ∧ Agrees grid sol :=
      ⟨full, ((completion_iff_solved hr hv full).1 hc).2,
        ((completion_iff_solved hr hv full).1 hc).1⟩
    refine ⟨⟨true, full, h⟩, ⟨?_, fun hno => absurd hsol hno⟩, fun _ => ⟨full, h⟩⟩
    rintro ⟨g, hg⟩
    rw [h] at hg
    simp at hg
  · have hno : ¬ ∃ sol, Solved sol ∧ Agrees grid sol := by
      rintro ⟨sol, hs, ha⟩
      exact hnone sol ((completion_iff_solved hr hv sol).2 ⟨ha, hs⟩)
    exact ⟨⟨false, grid, h⟩, ⟨fun _ => hno, fun _ => ⟨grid, h⟩⟩, fun hs => absurd hs hno⟩

/-- C5 at a grid without repeated digits that has no solution: the solver returns
false and no solved grid agrees with it. -/
theorem solveSudoku_false_iff_unsolvable_witness :
    CellsInRange stuckGrid ∧ ValidPartial stuckGrid ∧
    solveSudoku stuckGrid = some (false, stuckGrid) ∧
    ¬ ∃ sol, Solved sol ∧ Agrees stuckGrid sol :=
  have hrun : solveSudoku stuckGrid = some (false, stuckGrid) :=
    solveSudoku_eq_of_rows (by decide)
  ⟨by decide, by decide, hrun,
    (solveSudoku_false_iff_unsolvable stuckGrid (by decide) (by decide)).2.1.1
      ⟨stuckGrid, hrun⟩⟩

/-- C6: for every grid, valid or not, a call of `solveSudoku` that returns false leaves
the grid cell for cell as it was before the call. -/
theorem solveSudoku_false_restores (grid after : Grid)
    (h : solveSudoku grid = some (false, after)) : after = grid := by
  rcases solveSudoku_outcome grid with ⟨full, h', _⟩ | ⟨h', _⟩
  · rw [h] at h'
    simp at h'
  · rw [h] at h'
    simp only [Option.some.injEq, Prod.mk.injEq, true_and] at h'
    exact h'

/-- C6 at an invalid grid on which the search places digits at `(0, 0)`, fails at
`(0, 1)` and backtracks: the call returns false and the grid is as before. -/
theorem solveSudoku_false_restores_witness :
    solveSudoku clashGrid = some (false, clashGridAfter) ∧ clashGridAfter = clashGrid :=
  have hrun : solveSudoku clashGrid = some (false, clashGridAfter) :=
    solveSudoku_eq_of_rows (by decide)
  ⟨hrun, solveSudoku_false_restores clashGrid clashGridAfter hrun⟩

/-- C7 (as stated, refuted): the grid `dupGrid` has cells in `{EMPTY, 1..9}` and holds the
digit 1 in two different cells of row 0, yet `solveSudoku` returns true on it, filling
the one empty cell with 8. -/
theorem solveSudoku_duplicate_row_counterexample :
    CellsInRange dupGrid ∧
    (dupGrid 0 0 = 1 ∧ dupGrid 0 1 = 1) ∧
    (solveSudoku dupGrid).map (fun p => (p.1, toRows p.2)) =
      some (true, [[1, 1, 3, 4, 5, 6, 7, 8, 9],
                   [4, 5, 6, 7, 8, 9, 1, 2, 3],
                   [7, 8, 9, 1, 2, 3, 4, 5, 6],
                   [2, 3, 4, 5, 6, 7, 8, 9, 1],
                   [5, 6, 7, 8, 9, 1, 2, 3, 4],
                   [8, 9, 1, 2, 3, 4, 5, 6, 7],
                   [3, 4, 5, 6, 7, 8, 9, 1, 2],
                   [6, 7, 8, 9, 1, 2, 3, 4, 5],
                   [9, 1, 2, 3, 4, 5, 6, 7, 8]]) := by
  decide

/-- A grid in which some row holds a digit twice, while that digit occurs in no other
row and no other row holds a digit twice, has no completion: each of the other eight
rows would need the digit in an empty cell, in eight different columns, none of them
one of the two columns that already hold it. -/
theorem no_completion_of_duplicate_row {grid : Grid} (hr : CellsInRange grid)
    {r c c' : Fin 9} (hne : c ≠ c') (hfilled : grid r c ≠ EMPTY)
    (hdup : grid r c = grid r c') (hclean : OtherRowsClean grid r (grid r c))
    (full : Grid) : ¬ Completion grid full := by
  rintro ⟨hag, hfill⟩
  have hd : 1 ≤ grid r c ∧ grid r c ≤ 9 := by
    have := hr r c
    simp only [EMPTY] at hfilled
    omega
  have hfc : full r c = grid r c := hag r c hfilled
  have hfc' : full r c' = grid r c := by
    rw [hag r c' (hdup ▸ hfilled)]
    exact hdup.symm
  have hrow : ∀ r', r' ≠ r → ∃ k, full r' k = grid r c ∧ grid r' k = EMPTY := by
    intro r' hr'
    obtain ⟨hno, hdist⟩ := hclean r' hr'
    have hperm : ((List.finRange 9).map (full r')).Perm oneToNine := by
      rw [perm_oneToNine_iff]
      constructor
      · intro k
        by_cases h0 : grid r' k = EMPTY
        · exact (hfill r' k h0).1
        · rw [hag r' k h0]
          have := hr r' k
          simp only [EMPTY] at h0
          omega
      · intro k k' heq
        by_contra hkk
        by_cases h0 : grid r' k = EMPTY
        · exact (hfill r' k h0).2 r' k' ⟨fun e => hkk e.2.symm, Or.inl rfl⟩ heq.symm
        · by_cases h1 : grid r' k' = EMPTY
          · exact (hfill r' k' h1).2 r' k ⟨fun e => hkk e.2, Or.inl rfl⟩ heq
          · rw [hag r' k h0, hag r' k' h1] at heq
            exact hdist k k' hkk h0 heq
    have hmem : grid r c ∈ (List.finRange 9).map (full r') := by
      apply hperm.mem_iff.2
      simp only [oneToNine, List.mem_cons, List.mem_singleton, List.not_mem_nil, or_false]
      omega
    obtain ⟨k, _, hk⟩ := List.mem_map.1 hmem
    refine ⟨k, hk, ?_⟩
    by_contra h0
    exact hno k (by rw [← hag r' k h0]; exact hk)
  choose k hk using hrow
  let K : Fin 9 → Fin 9 := fun a => if h : a = r then c else k a h
  have hKr : K r = c := dif_pos rfl
  have hKo : ∀ a (h : a ≠ r), K a = k a h := fun a h => dif_neg h
  have hcol : ∀ a (h : a ≠ r), k a h ≠ c ∧ k a h ≠ c' := by
    intro a h
    obtain ⟨h1, h2⟩ := hk a h
    constructor
    · intro e
      rw [e] at h1 h2
      exact (hfill a c h2).2 r c ⟨fun e' => h e'.1.symm, Or.inr (Or.inl rfl)⟩
        (by rw [hfc, h1])
    · intro e
      rw [e] at h1 h2
      exact (hfill a c' h2).2 r c' ⟨fun e' => h e'.1.symm, Or.inr (Or.inl rfl)⟩
        (by rw [hfc', h1])
  have hKinj : Function.Injective K := by
    intro a b hab
    by_cases ha : a = r
    · by_cases hb : b = r
      · rw [ha, hb]
      · rw [ha, hKr, hKo b hb] at hab
        exact absurd hab.symm (hcol b hb).1
    · by_cases hb : b = r
      · rw [hb, hKr, hKo a ha] at hab
        exact absurd hab (hcol a ha).1
      · rw [hKo a ha, hKo b hb] at hab
        by_contra hne'
        obtain ⟨h1, h2⟩ := hk a ha
        obtain ⟨h3, _⟩ := hk b hb
        rw [← hab] at h3
        exact (hfill a (k a ha) h2).2 b (k a ha)
          ⟨fun e' => hne' e'.1.symm, Or.inr (Or.inl rfl)⟩ (by rw [h1, h3])
  obtain ⟨a, ha⟩ := (Finite.injective_iff_surjective.1 hKinj) c'
  by_cases h : a = r
  · rw [h, hKr] at ha
    exact hne ha
  · rw [hKo a h] at ha
    exact (hcol a h).2 ha

/-- C7 (amended): on a grid with cells in `{EMPTY, 1..9}` in which some row holds the same
digit in two different cells, `solveSudoku` returns false, leaving the grid unchanged,
whenever that digit occurs in no other row and no other row holds a digit twice. In
general it returns false, leaving the grid unchanged, exactly when the `EMPTY` cells
cannot be filled with digits `1..9` so that every filled-in cell differs from all other
cells of its row, column and box; otherwise it returns true and leaves such a filling,
which still holds the digit in both cells and is not a solved grid. -/
theorem solveSudoku_duplicate_row (grid : Grid) (hr : CellsInRange grid) (r c c' : Fin 9)
    (hne : c ≠ c') (hfilled : grid r c ≠ EMPTY) (hdup : grid r c = grid r c') :
    (OtherRowsClean grid r (grid r c) → solveSudoku grid = some (false, grid)) ∧
    (solveSudoku grid = some (false, grid) ↔ ¬ ∃ full, Completion grid full) ∧
    (solveSudoku grid = some (false, grid) ∨
      ∃ full, solveSudoku grid = some (true, full) ∧ Completion grid full ∧
        full r c = grid r c ∧ full r c' = grid r c' ∧ ¬ Solved full) := by
  rcases solveSudoku_outcome grid with ⟨full, h, hc⟩ | ⟨h, hnone⟩
  · refine ⟨fun hclean => ?_, ⟨fun hf => ?_, fun hno => absurd ⟨full, hc⟩ hno⟩, Or.inr ?_⟩
    · exact absurd hc (no_completion_of_duplicate_row hr hne hfilled hdup hclean full)
    · rw [h] at hf
      simp at hf
    · have e1 : full r c = grid r c := hc.1 r c hfilled
      have e2 : full r c' = grid r c' := hc.1 r c' (hdup ▸ hfilled)
      refine ⟨full, h, hc, e1, e2, fun hs => ?_⟩
      have := ((solved_iff full).1 hs).2 r c r c' ⟨fun e => hne e.2.symm, Or.inl rfl⟩
      exact this (by rw [e1, e2, hdup])
  · exact ⟨fun _ => h, ⟨fun _ => fun ⟨full, hc⟩ => hnone full hc, fun _ => h⟩, Or.inl h⟩

/-- C7 (amended) at the grid `twoFives`, two 5s in row 0 and every other cell `EMPTY`: the
call returns false and leaves the grid unchanged. -/
theorem solveSudoku_duplicate_row_witness :
    CellsInRange twoFives ∧
    ((0 : Fin 9) ≠ 8 ∧ twoFives 0 0 = 5 ∧ twoFives 0 8 = 5) ∧
    OtherRowsClean twoFives 0 5 ∧
    solveSudoku twoFives = some (false, twoFives) :=
  ⟨by decide, by decide, by decide,
    (solveSudoku_duplicate_row twoFives (by decide) 0 0 8 (by decide) (by decide)
      (by decide)).1 (by decide)⟩

/-! ## The generator -/

theorem countP_add_countP_not {α : Type} (p : α → Bool) (l : List α) :
    l.countP p + l.countP (fun x => !p x) = l.length := by
  induction l with
  | nil => rfl
  | cons x xs ih =>
    cases hp : p x <;> simp [List.countP_cons, hp] <;> omega

theorem emptyCount_add_filledCount (grid : Grid) : emptyCount grid + filledCount grid = 81 := by
  unfold emptyCount filledCount
  rw [countP_add_countP_not (fun p : Fin 9 × Fin 9 => grid p.1 p.2 == EMPTY) allCells,
    length_allCells]

theorem emptyCount_eq_zero {grid : Grid} (h : NoEmpty grid) : emptyCount grid = 0 := by
  unfold emptyCount
  rw [List.countP_eq_zero]
  rintro ⟨r, c⟩ _
  simpa using h r c

/-- The removal loop, when it finishes, has erased exactly the requested number of cells
and changed nothing else. -/
theorem removeCells_spec : ∀ (picks : List (Fin 9 × Fin 9)) (n : Nat) (grid out : Grid),
    removeCells n picks grid = some out →
      emptyCount out = emptyCount grid + n ∧
      ∀ r c, out r c ≠ EMPTY → out r c = grid r c := by
  intro picks
  induction picks with
  | nil =>
    intro n grid out h
    cases n with
    | zero =>
      simp only [removeCells, Option.some.injEq] at h
      subst h
      exact ⟨rfl, fun _ _ _ => rfl⟩
    | succ n => simp [removeCells] at h
  | cons p rest ih =>
    intro n grid out h
    obtain ⟨row, col⟩ := p
    cases n with
    | zero =>
      simp only [removeCells, Option.some.injEq] at h
      subst h
      exact ⟨rfl, fun _ _ _ => rfl⟩
    | succ n =>
      by_cases hcell : grid row col = EMPTY
      · have hstep : removeCells (n + 1) ((row, col) :: rest) grid
            = removeCells (n + 1) rest grid := by
          simp [removeCells, hcell]
        rw [hstep] at h
        exact ih (n + 1) grid out h
      · have hstep : removeCells (n + 1) ((row, col) :: rest) grid
            = removeCells n rest (setCell grid row col EMPTY) := by
          simp [removeCells, hcell]
        rw [hstep] at h
        obtain ⟨h1, h2⟩ := ih n _ out h
        constructor
        · rw [h1, emptyCount_erase grid row col hcell]
          omega
        · intro r c hne
          have := h2 r c hne
          by_cases hrc : r = row ∧ c = col
          · obtain ⟨rfl, rfl⟩ := hrc
            rw [setCell_same] at this
            exact absurd this hne
          · rwa [setCell_other _ _ _ _ _ _ hrc] at this

/-- A pick repeated immediately changes nothing: the second one finds the cell empty. -/
theorem removeCells_repeat (n : Nat) (p : Fin 9 × Fin 9) (rest : List (Fin 9 × Fin 9))
    (grid : Grid) : removeCells n (p :: p :: rest) grid = removeCells n (p :: rest) grid := by
  obtain ⟨row, col⟩ := p
  cases n with
  | zero => simp [removeCells]
  | succ n =>
    by_cases hcell : grid row col = EMPTY
    · simp [removeCells, hcell]
    · cases n with
      | zero => simp [removeCells, hcell]
      | succ n => simp [removeCells, hcell, setCell_same]

/-- The removal loop finishes on picks that are pairwise different non-empty cells, as
many as are to be removed. -/
theorem removeCells_finishes : ∀ (picks : List (Fin 9 × Fin 9)) (grid : Grid),
    picks.Nodup → (∀ p ∈ picks, grid p.1 p.2 ≠ EMPTY) →
      ∃ out, removeCells picks.length picks grid = some out := by
  intro picks
  induction picks with
  | nil => intro grid _ _; exact ⟨grid, rfl⟩
  | cons p rest ih =>
    intro grid hnd hfilled
    obtain ⟨row, col⟩ := p
    rw [List.nodup_cons] at hnd
    have hcell : grid row col ≠ EMPTY := hfilled (row, col) (List.mem_cons_self _ _)
    have hstep : removeCells (List.length ((row, col) :: rest)) ((row, col) :: rest) grid
        = removeCells rest.length rest (setCell grid row col EMPTY) := by
      simp [removeCells, hcell]
    rw [hstep]
    apply ih _ hnd.2
    rintro ⟨r, c⟩ hq
    have hrc : ¬ (r = row ∧ c = col) := by
      rintro ⟨rfl, rfl⟩
      exact hnd.1 hq
    rw [setCell_other _ _ _ _ _ _ hrc]
    exact hfilled (r, c) (List.mem_cons_of_mem _ hq)

/-- The generator's result in terms of the solved grid it starts from. -/
theorem generateSudoku_eq {difficulty : Difficulty} {picks : List (Fin 9 × Fin 9)}
    {full : Grid} (h : solveSudoku emptyGrid = some (true, full)) :
    generateSudoku difficulty picks = removeCells (numToRemove difficulty) picks full := by
  unfold generateSudoku
  rw [h]
  rfl

/-- The generator finishes on the picks `easyPicks` at difficulty `EASY`. -/
theorem generateSudoku_easyPicks : ∃ grid, generateSudoku .EASY easyPicks = some grid := by
  obtain ⟨full, hrun, hsolved⟩ := solveSudoku_emptyGrid
  rw [generateSudoku_eq hrun]
  have hshape : easyPicks = (0, 0) :: (0, 0) :: (allCells.take 40).tail := by decide
  have hlen : numToRemove .EASY = (allCells.take 40).length := by decide
  rw [hshape, removeCells_repeat, hlen]
  have hback : (0, 0) :: (allCells.take 40).tail = allCells.take 40 := by decide
  rw [hback]
  exact removeCells_finishes _ full (by decide) (fun p _ => solved_noEmpty hsolved p.1 p.2)

/-- C8: whenever the removal loop finishes, the generated grid has exactly
`numToRemove` empty cells, 40 for `EASY`, 50 for `MEDIUM` and 60 for `HARD`, and so
exactly 41, 31 and 21 filled cells. -/
theorem generateSudoku_counts (difficulty : Difficulty) (picks : List (Fin 9 × Fin 9))
    (grid : Grid) (h : generateSudoku difficulty picks = some grid) :
    emptyCount grid = numToRemove difficulty ∧
    filledCount grid = 81 - numToRemove difficulty ∧
    emptyCount grid = (match difficulty with | .EASY => 40 | .MEDIUM => 50 | .HARD => 60) ∧
    filledCount grid = (match difficulty with | .EASY => 41 | .MEDIUM => 31 | .HARD => 21) := by
  obtain ⟨full, hrun, hsolved⟩ := solveSudoku_emptyGrid
  rw [generateSudoku_eq hrun] at h
  have h1 := (removeCells_spec picks _ full grid h).1
  rw [emptyCount_eq_zero (solved_noEmpty hsolved), Nat.zero_add] at h1
  have h2 := emptyCount_add_filledCount grid
  cases difficulty <;> simp only [numToRemove] at h1 ⊢ <;> omega

/-- C8 at difficulty `EASY` with a pick sequence that repeats its first pick: the loop
finishes and leaves 40 empty and 41 filled cells. -/
theorem generateSudoku_counts_witness :
    ∃ grid, generateSudoku .EASY easyPicks = some grid ∧
      emptyCount grid = 40 ∧ filledCount grid = 41 :=
  generateSudoku_easyPicks.elim fun grid h =>
    ⟨grid, h, (generateSudoku_counts .EASY easyPicks grid h).2.2⟩

/-- C9: whenever the removal loop finishes, every non-`EMPTY` cell of the generated grid
holds the value of the same cell in the grid `solveSudoku` leaves on the all-`EMPTY`
grid, and the generated grid has no digit twice in any row, column or box. -/
theorem generateSudoku_keeps_solution (difficulty : Difficulty)
    (picks : List (Fin 9 × Fin 9)) (grid : Grid)
    (h : generateSudoku difficulty picks = some grid) :
    ∃ full, solveSudoku emptyGrid = some (true, full) ∧
      (∀ r c, grid r c ≠ EMPTY → grid r c = full r c) ∧ ValidPartial grid := by
  obtain ⟨full, hrun, hsolved⟩ := solveSudoku_emptyGrid
  rw [generateSudoku_eq hrun] at h
  have hkeep := (removeCells_spec picks _ full grid h).2
  refine ⟨full, hrun, hkeep, ?_⟩
  intro row col r c hp h0 heq
  have hr0 : grid r c ≠ EMPTY := by rw [heq]; exact h0
  rw [hkeep r c hr0, hkeep row col h0] at heq
  exact ((solved_iff full).1 hsolved).2 row col r c hp heq

/-- C9 at difficulty `EASY` with the picks `easyPicks`: the generated grid is a part of
the solver's grid and has no repeated digit. -/
theorem generateSudoku_keeps_solution_witness :
    ∃ grid full, generateSudoku .EASY easyPicks = some grid ∧
      solveSudoku emptyGrid = some (true, full) ∧
      (∀ r c, grid r c ≠ EMPTY → grid r c = full r c) ∧ ValidPartial grid :=
  generateSudoku_easyPicks.elim fun grid h =>
    (generateSudoku_keeps_solution .EASY easyPicks grid h).elim fun full hfull =>
      ⟨grid, full, h, hfull⟩

/-! ## Out-of-range digits, guarded placement and the frame of the solver -/

/-- Writing a digit that `canPlace` accepts into an empty cell keeps the grid free of
repeated digits. -/
theorem validPartial_setCell {grid : Grid} (hv : ValidPartial grid) {row col : Fin 9}
    {d : Int} (hcan : canPlace grid row col d = true) :
    ValidPartial (setCell grid row col d) := by
  have hfree := (canPlace_eq_true_iff grid row col d).1 hcan
  intro a b r c hp hne
  by_cases hab : a = row ∧ b = col
  · obtain ⟨rfl, rfl⟩ := hab
    rw [setCell_same, setCell_other _ _ _ _ _ _ hp.1]
    exact hfree r c hp.2
  · rw [setCell_other _ _ _ _ _ _ hab] at hne ⊢
    by_cases hrc : r = row ∧ c = col
    · obtain ⟨rfl, rfl⟩ := hrc
      rw [setCell_same]
      exact fun e => hfree a b (isPeer_symm hp).2 e.symm
    · rw [setCell_other _ _ _ _ _ _ hrc]
      exact hv a b r c hp hne

/-- C11 (as stated, refuted): the digit 0 lies outside `[1, 9]`, but it is the value
`EMPTY`, and on the all-empty grid `canPlace(grid, 0, 0, 0)` returns false. -/
theorem canPlace_zero_counterexample :
    CellsInRange emptyGrid ∧ ¬ (1 ≤ (0 : Int) ∧ (0 : Int) ≤ 9) ∧
    canPlace emptyGrid 0 0 0 = false := by
  decide

/-- C11 (amended): on a grid with cells in `{EMPTY, 1..9}`, `canPlace` returns true for
every number below 0 or above 9; for the number 0, which is the value `EMPTY`, it returns
false exactly when some cell of the row, column or box is `EMPTY`. -/
theorem canPlace_out_of_range (grid : Grid) (hr : CellsInRange grid) (row col : Fin 9)
    (num : Int) (hnum : num < 0 ∨ 9 < num) :
    canPlace grid row col num = true ∧
    (canPlace grid row col 0 = false ↔ ∃ r c, InUnit row col r c ∧ grid r c = EMPTY) := by
  constructor
  · rw [canPlace_eq_true_iff]
    intro r c _
    have := hr r c
    omega
  · exact canPlace_eq_false_iff grid row col 0

/-- C11 (amended) at the classic grid with cell `(0, 0)` erased and the numbers 10 and 0:
10 is accepted at `(0, 0)`, 0 is rejected there. -/
theorem canPlace_out_of_range_witness :
    CellsInRange classicErased ∧ canPlace classicErased 0 0 10 = true ∧
    canPlace classicErased 0 0 0 = false :=
  have h := canPlace_out_of_range classicErased (by decide) 0 0 10 (by decide)
  ⟨by decide, h.1, h.2.2 ⟨0, 0, by decide, by decide⟩⟩

/-- C13: in a grid with no digit twice in any row, column or box, writing a digit `1..9`
that `canPlace` accepts into an `EMPTY` cell gives a grid with no digit twice in any row,
column or box. -/
theorem canPlace_preserves_validPartial (grid : Grid) (hv : ValidPartial grid)
    (row col : Fin 9) (_hempty : grid row col = EMPTY) (d : Int) (_h1 : 1 ≤ d) (_h9 : d ≤ 9)
    (hcan : canPlace grid row col d = true) :
    ValidPartial (setCell grid row col d) :=
  validPartial_setCell hv hcan

/-- C13 at the classic grid with cell `(0, 0)` erased and the digit 1. -/
theorem canPlace_preserves_validPartial_witness :
    ValidPartial classicErased ∧ classicErased 0 0 = EMPTY ∧
    canPlace classicErased 0 0 1 = true ∧ ValidPartial (setCell classicErased 0 0 1) :=
  ⟨by decide, by decide, by decide,
    canPlace_preserves_validPartial classicErased (by decide) 0 0 (by decide) 1
      (by decide) (by decide) (by decide)⟩

/-- C16: whatever `solveSudoku` returns, every cell that was not `EMPTY` before the call
holds the same value after it; a cell that differs was `EMPTY` at entry. -/
theorem solveSudoku_keeps_filled (grid after : Grid) (b : Bool)
    (h : solveSudoku grid = some (b, after)) :
    (∀ r c, grid r c ≠ EMPTY → after r c = grid r c) ∧
    (∀ r c, after r c ≠ grid r c → grid r c = EMPTY) := by
  have hkeep : ∀ r c, grid r c ≠ EMPTY → after r c = grid r c := by
    rcases solveSudoku_outcome grid with ⟨full, h', hc⟩ | ⟨h', _⟩
    · rw [h] at h'
      simp only [Option.some.injEq, Prod.mk.injEq] at h'
      rw [h'.2]
      exact hc.1
    · rw [h] at h'
      simp only [Option.some.injEq, Prod.mk.injEq] at h'
      rw [h'.2]
      exact fun _ _ _ => rfl
  exact ⟨hkeep, fun r c hne => by_contra fun h0 => hne (hkeep r c h0)⟩

/-- C16 at the classic grid with three cells erased: the call returns true and the cell
`(0, 1)`, filled before the call, still holds 2. -/
theorem solveSudoku_keeps_filled_witness :
    solveSudoku classicPuzzle = some (true, classicGrid) ∧
    classicPuzzle 0 1 ≠ EMPTY ∧ classicGrid 0 1 = classicPuzzle 0 1 :=
  have hrun : solveSudoku classicPuzzle = some (true, classicGrid) :=
    solveSudoku_eq_of_rows (by decide)
  ⟨hrun, by decide,
    (solveSudoku_keeps_filled classicPuzzle classicGrid true hrun).1 0 1 (by decide)⟩

/-! ## Termination of the solver -/

/-- Every recursive call of the `num` loop is made on the grid of the caller with one
digit written into the empty cell `(row, col)`. -/
theorem tryDigitsCalls_spec (solve : Grid → Option (Bool × Grid)) (grid : Grid)
    (row col : Fin 9) (hempty : grid row col = EMPTY)
    (hsolve : ∀ d, 1 ≤ d ∧ d ≤ 9 →
      Outcome (setCell grid row col d) (solve (setCell grid row col d))) :
    ∀ nums : List Int, (∀ d ∈ nums, 1 ≤ d ∧ d ≤ 9) →
      ∀ g ∈ tryDigitsCalls solve row col nums grid,
        ∃ d, (1 ≤ d ∧ d ≤ 9) ∧ canPlace grid row col d = true ∧ g = setCell grid row col d := by
  intro nums
  induction nums with
  | nil => intro _ g hg; simp [tryDigitsCalls] at hg
  | cons d rest ih =>
    intro hr g hg
    have hd : 1 ≤ d ∧ d ≤ 9 := hr d (List.mem_cons_self _ _)
    have ih' := ih (fun x hx => hr x (List.mem_cons_of_mem _ hx))
    by_cases hcan : canPlace grid row col d = true
    · rcases hsolve d hd with ⟨full, hres, _⟩ | ⟨hres, _⟩
      · simp only [tryDigitsCalls, hcan, hres, if_true, List.mem_singleton] at hg
        exact ⟨d, hd, hcan, hg⟩
      · simp only [tryDigitsCalls, hcan, hres, if_true, List.mem_cons,
          setCell_undo grid row col d hempty] at hg
        rcases hg with hg | hg
        · exact ⟨d, hd, hcan, hg⟩
        · exact ih' g hg
    · simp only [tryDigitsCalls, hcan, if_false, Bool.false_eq_true] at hg
      exact ih' g hg

/-- Every direct recursive call is made on a grid with exactly one empty cell fewer. -/
theorem recursiveCalls_emptyCount (fuel : Nat) (grid : Grid) (hfuel : emptyCount grid ≤ fuel) :
    ∀ g ∈ recursiveCalls fuel grid, emptyCount g + 1 = emptyCount grid := by
  intro g hg
  unfold recursiveCalls at hg
  cases hfind : findEmpty grid with
  | none => rw [hfind] at hg; simp at hg
  | some p =>
    obtain ⟨row, col⟩ := p
    rw [hfind] at hg
    have hempty := findEmpty_some hfind
    have hsolve : ∀ d, 1 ≤ d ∧ d ≤ 9 →
        Outcome (setCell grid row col d) (solveFuel fuel (setCell grid row col d)) := by
      intro d hd
      apply solveFuel_outcome
      have := emptyCount_fill grid row col d hempty (by simp only [EMPTY]; omega)
      omega
    obtain ⟨d, hd, _, rfl⟩ := tryDigitsCalls_spec (solveFuel fuel) grid row col hempty hsolve
      digits (fun d hd => (mem_digits d).1 hd) g hg
    exact emptyCount_fill grid row col d hempty (by simp only [EMPTY]; omega)

/-- C12: `solveSudoku` returns on every grid. A grid has at most 81 empty cells, a depth
bound one above the number of empty cells already gives the result, and every recursive
call is made on a grid with strictly fewer empty cells than the grid of its caller. -/
theorem solveSudoku_terminates (grid : Grid) :
    (∃ res, solveSudoku grid = some res) ∧
    emptyCount grid ≤ 81 ∧
    solveFuel (emptyCount grid + 1) grid = solveSudoku grid ∧
    (∀ fuel, emptyCount grid ≤ fuel →
      ∀ g ∈ recursiveCalls fuel grid, emptyCount g < emptyCount grid) := by
  refine ⟨?_, emptyCount_le grid, solveFuel_eq_solveSudoku _ grid (Nat.lt_succ_self _), ?_⟩
  · rcases solveSudoku_outcome grid with ⟨full, h, _⟩ | ⟨h, _⟩
    · exact ⟨_, h⟩
    · exact ⟨_, h⟩
  · intro fuel hfuel g hg
    have := recursiveCalls_emptyCount fuel grid hfuel g hg
    omega

/-- C12 at the grid `stuckGrid` with its 72 empty cells: the call makes two recursive
calls, each on a grid with 71 empty cells. -/
theorem solveSudoku_terminates_witness :
    emptyCount stuckGrid = 72 ∧
    (recursiveCalls 81 stuckGrid).map emptyCount = [71, 71] ∧
    (∀ g ∈ recursiveCalls 81 stuckGrid, emptyCount g < emptyCount stuckGrid) :=
  ⟨by decide, by decide,
    (solveSudoku_terminates stuckGrid).2.2.2 81 (by decide)⟩

/-! ## The invariant of the removal loop -/

/-- The loop run to its end is the iteration of `removeStep` down to counter zero. -/
theorem removeCells_eq_some_iff : ∀ (picks : List (Fin 9 × Fin 9)) (n : Nat) (grid out : Grid),
    removeCells n picks grid = some out ↔ picks.foldl removeStep (n, grid) = (0, out) := by
  have hzero : ∀ (picks : List (Fin 9 × Fin 9)) (grid : Grid),
      picks.foldl removeStep (0, grid) = (0, grid) := by
    intro picks
    induction picks with
    | nil => intro grid; rfl
    | cons p rest ih => intro grid; simp [List.foldl_cons, removeStep, ih]
  intro picks
  induction picks with
  | nil =>
    intro n grid out
    cases n with
    | zero => simp [removeCells]
    | succ n => simp [removeCells]
  | cons p rest ih =>
    intro n grid out
    obtain ⟨row, col⟩ := p
    cases n with
    | zero => simp [removeCells, hzero]
    | succ n =>
      by_cases hcell : grid row col = EMPTY
      · simp [removeCells, removeStep, hcell, ih]
      · simp [removeCells, removeStep, hcell, ih]

/-- Each iteration keeps the sum of the counter and the number of filled cells. -/
theorem removeStep_invariant (st : Nat × Grid) (pick : Fin 9 × Fin 9) :
    emptyCount (removeStep st pick).2 + (removeStep st pick).1 = emptyCount st.2 + st.1 := by
  unfold removeStep
  by_cases h0 : st.1 = 0
  · simp [h0]
  · by_cases hcell : st.2 pick.1 pick.2 = EMPTY
    · simp [h0, hcell]
    · simp only [h0, if_false, ne_eq, hcell, not_false_eq_true, if_true]
      rw [emptyCount_erase _ _ _ hcell]
      omega

theorem removeStates_invariant : ∀ (picks : List (Fin 9 × Fin 9)) (st : Nat × Grid),
    emptyCount (picks.foldl removeStep st).2 + (picks.foldl removeStep st).1
      = emptyCount st.2 + st.1 := by
  intro picks
  induction picks with
  | nil => intro st; rfl
  | cons p rest ih =>
    intro st
    rw [List.foldl_cons, ih, removeStep_invariant]

/-- C14: at every iteration of the removal loop, whatever the difficulty and the picks so
far, the number of non-`EMPTY` cells is `(81 - numToRemove_initial) + numToRemove_current`;
while the counter is positive at least 22 cells are non-`EMPTY`, and some pick lowers the
counter. -/
theorem generateSudoku_loop_invariant (difficulty : Difficulty)
    (picks : List (Fin 9 × Fin 9)) :
    ∃ st, generateSudokuState difficulty picks = some st ∧
      filledCount st.2 = (81 - numToRemove difficulty) + st.1 ∧
      (0 < st.1 → 22 ≤ filledCount st.2) ∧
      (0 < st.1 → ∃ pick, (removeStep st pick).1 + 1 = st.1) := by
  obtain ⟨full, hrun, hsolved⟩ := solveSudoku_emptyGrid
  refine ⟨picks.foldl removeStep (numToRemove difficulty, full), ?_, ?_⟩
  · unfold generateSudokuState
    rw [hrun]
    rfl
  · have hinv := removeStates_invariant picks (numToRemove difficulty, full)
    simp only [emptyCount_eq_zero (solved_noEmpty hsolved), Nat.zero_add] at hinv
    have hN : numToRemove difficulty = 40 ∨ numToRemove difficulty = 50 ∨
        numToRemove difficulty = 60 := by
      cases difficulty <;> simp [numToRemove]
    generalize picks.foldl removeStep (numToRemove difficulty, full) = st at hinv ⊢
    generalize numToRemove difficulty = n at hinv hN ⊢
    have hsum := emptyCount_add_filledCount st.2
    refine ⟨by omega, fun hpos => by omega, fun hpos => ?_⟩
    have hex : 0 < filledCount st.2 := by omega
    unfold filledCount at hex
    obtain ⟨pick, _, hpick⟩ := List.countP_pos_iff.1 hex
    refine ⟨pick, ?_⟩
    have hne : st.2 pick.1 pick.2 ≠ EMPTY := by simpa using hpick
    have h0 : st.1 ≠ 0 := by omega
    simp only [removeStep, h0, if_false, ne_eq, hne, not_false_eq_true, if_true]
    omega

/-! ## The search returns the least completion -/

/-- Two grids that agree on the cells before some cell, the first being smaller at that
cell, are in lexicographic order. -/
theorem lex_of_split (g h : Grid) (p : Fin 9 × Fin 9) :
    ∀ (l front back : List (Fin 9 × Fin 9)), l = front ++ p :: back →
      (∀ a ∈ front, g a.1 a.2 = h a.1 a.2) → g p.1 p.2 < h p.1 p.2 →
      List.Lex (fun a b : Int => a < b) (l.map fun q => g q.1 q.2)
        (l.map fun q => h q.1 q.2) := by
  intro l front
  induction front generalizing l with
  | nil =>
    intro back hl _ hlt
    subst hl
    exact List.Lex.rel hlt
  | cons a rest ih =>
    intro back hl heq hlt
    subst hl
    simp only [List.cons_append, List.map_cons]
    rw [heq a (List.mem_cons_self _ _)]
    exact List.Lex.cons
      (ih _ back rfl (fun x hx => heq x (List.mem_cons_of_mem _ hx)) hlt)

theorem cells_eq_of_eq_on (g h : Grid) (heq : ∀ r c, g r c = h r c) : cells g = cells h := by
  have : g = h := by funext r c; exact heq r c
  rw [this]

theorem pairwise_digits : digits.Pairwise (fun a b : Int => a < b) := by decide

/-- The `num` loop returns a completion that is at most every completion whose digit at
`(row, col)` is still to be tried, when the recursive calls behave and return least
completions. -/
theorem tryDigits_least (solve : Grid → Option (Bool × Grid)) (grid : Grid)
    (row col : Fin 9) (hempty : grid row col = EMPTY)
    (front back : List (Fin 9 × Fin 9)) (hsplit : allCells = front ++ (row, col) :: back)
    (hfront : ∀ a ∈ front, grid a.1 a.2 ≠ EMPTY)
    (hsolve : ∀ d, 1 ≤ d ∧ d ≤ 9 →
      Outcome (setCell grid row col d) (solve (setCell grid row col d)))
    (hleast : ∀ d full, 1 ≤ d ∧ d ≤ 9 → solve (setCell grid row col d) = some (true, full) →
      ∀ sol, Completion (setCell grid row col d) sol → LexLE full sol) :
    ∀ nums : List Int, nums.Pairwise (fun a b : Int => a < b) →
      (∀ d ∈ nums, 1 ≤ d ∧ d ≤ 9) →
      ∀ full, tryDigits solve row col nums grid = some (true, full) →
        ∀ sol, Completion grid sol → sol row col ∈ nums → LexLE full sol := by
  intro nums
  induction nums with
  | nil => intro _ _ full _ sol _ hmem; simp at hmem
  | cons d rest ih =>
    intro hsorted hr full hres sol hsol hmem
    rw [List.pairwise_cons] at hsorted
    have hd : 1 ≤ d ∧ d ≤ 9 := hr d (List.mem_cons_self _ _)
    have hdne : d ≠ EMPTY := by simp only [EMPTY]; omega
    have ih' := ih hsorted.2 (fun x hx => hr x (List.mem_cons_of_mem _ hx))
    by_cases hcan : canPlace grid row col d = true
    · rcases hsolve d hd with ⟨full', hrun, hcomp⟩ | ⟨hrun, hnone⟩
      · have hfull : full' = full := by
          simp only [tryDigits, hcan, hrun, if_true, Option.some.injEq, Prod.mk.injEq,
            true_and] at hres
          exact hres
        subst hfull
        rcases List.mem_cons.1 hmem with e | e
        · exact hleast d full' hd hrun sol (e ▸ completion_setCell_of hempty hsol)
        · right
          have hlow : full' row col = d := by
            have := hcomp.1 row col (by rw [setCell_same]; exact hdne)
            rwa [setCell_same] at this
          have hcompl := completion_of_setCell hempty hd hcan hcomp
          refine lex_of_split full' sol (row, col) allCells front back hsplit ?_ ?_
          · intro a ha
            rw [hcompl.1 a.1 a.2 (hfront a ha), hsol.1 a.1 a.2 (hfront a ha)]
          · show full' row col < sol row col
            rw [hlow]
            exact hsorted.1 _ e
      · have hstep : tryDigits solve row col (d :: rest) grid
            = tryDigits solve row col rest grid := by
          simp [tryDigits, hcan, hrun, setCell_undo grid row col d hempty]
        rw [hstep] at hres
        rcases List.mem_cons.1 hmem with e | e
        · exact absurd (e ▸ completion_setCell_of hempty hsol) (hnone sol)
        · exact ih' full hres sol hsol e
    · have hcan' : canPlace grid row col d = false := by simpa using hcan
      have hstep : tryDigits solve row col (d :: rest) grid
          = tryDigits solve row col rest grid := by
        simp [tryDigits, hcan']
      rw [hstep] at hres
      rcases List.mem_cons.1 hmem with e | e
      · exact absurd e (completion_ne_of_canPlace_false hempty hdne hcan' hsol)
      · exact ih' full hres sol hsol e

/-- With more fuel than empty cells, a successful search leaves a completion that is at
most every completion of its input. -/
theorem solveFuel_least : ∀ (fuel : Nat) (grid : Grid), emptyCount grid < fuel →
    ∀ full, solveFuel fuel grid = some (true, full) →
      ∀ sol, Completion grid sol → LexLE full sol := by
  intro fuel
  induction fuel with
  | zero => intro grid h; omega
  | succ fuel ih =>
    intro grid hlt full hres sol hsol
    cases hfind : findEmpty grid with
    | none =>
      simp only [solveFuel, hfind, Option.some.injEq, Prod.mk.injEq, true_and] at hres
      subst hres
      left
      exact cells_eq_of_eq_on _ _ fun r c => (hsol.1 r c (findEmpty_none hfind r c)).symm
    | some p =>
      obtain ⟨row, col⟩ := p
      have hempty := findEmpty_some hfind
      obtain ⟨_, front, back, hsplit, hfront⟩ := List.find?_eq_some.1 hfind
      have hfront' : ∀ a ∈ front, grid a.1 a.2 ≠ EMPTY := by
        intro a ha
        simpa using hfront a ha
      have hsmall : ∀ d, 1 ≤ d ∧ d ≤ 9 → emptyCount (setCell grid row col d) < fuel := by
        intro d hd
        have := emptyCount_fill grid row col d hempty (by simp only [EMPTY]; omega)
        omega
      have hrun : solveFuel (fuel + 1) grid
          = tryDigits (solveFuel fuel) row col digits grid := by
        simp [solveFuel, hfind]
      rw [hrun] at hres
      exact tryDigits_least (solveFuel fuel) grid row col hempty front back hsplit hfront'
        (fun d hd => solveFuel_outcome fuel _ (hsmall d hd))
        (fun d full' hd h' => ih _ (hsmall d hd) full' h')
        digits pairwise_digits (fun d hd => (mem_digits d).1 hd) full hres sol hsol
        ((mem_digits _).2 (hsol.2 row col hempty).1)

/-- C15: on a grid with cells in `{EMPTY, 1..9}` and no digit twice in a row, column or
box, a call of `solveSudoku` that returns true leaves the least valid completion: a
solved grid that agrees with the input on its non-empty cells and is at most every such
grid in the lexicographic order of the 81 cells read row by row. -/
theorem solveSudoku_least_completion (grid full : Grid) (hr : CellsInRange grid)
    (hv : ValidPartial grid) (h : solveSudoku grid = some (true, full)) :
    (Solved full ∧ Agrees grid full) ∧
    ∀ sol, Solved sol → Agrees grid sol → LexLE full sol := by
  have hlt : emptyCount grid < SIZE * SIZE + 1 := by
    have := emptyCount_le grid
    simp only [SIZE]
    omega
  constructor
  · rcases solveSudoku_outcome grid with ⟨full', h', hc⟩ | ⟨h', _⟩
    · rw [h] at h'
      simp only [Option.some.injEq, Prod.mk.injEq, true_and] at h'
      subst h'
      exact ⟨((completion_iff_solved hr hv full).1 hc).2,
        ((completion_iff_solved hr hv full).1 hc).1⟩
    · rw [h] at h'
      simp at h'
  · intro sol hs ha
    exact solveFuel_least _ grid hlt full h sol ((completion_iff_solved hr hv sol).2 ⟨ha, hs⟩)

/-- C15 at a puzzle with two solutions: the call leaves `firstGrid`, which is at most the
other solution `swappedGrid`. -/
theorem solveSudoku_least_completion_witness :
    CellsInRange twoWayPuzzle ∧ ValidPartial twoWayPuzzle ∧
    solveSudoku twoWayPuzzle = some (true, firstGrid) ∧
    (Solved swappedGrid ∧ Agrees twoWayPuzzle swappedGrid) ∧
    LexLE firstGrid swappedGrid :=
  have hrun : solveSudoku twoWayPuzzle = some (true, firstGrid) :=
    solveSudoku_eq_of_rows (by decide)
  ⟨by decide, by decide, hrun, ⟨by decide, by decide⟩,
    (solveSudoku_least_completion twoWayPuzzle firstGrid (by decide) (by decide) hrun).2
      swappedGrid (by decide) (by decide)⟩

/-! ## The game loop keeps the grid valid -/

theorem isSudokuSolved_iff (grid : Grid) : isSudokuSolved grid = true ↔ NoEmpty grid := by
  simp only [isSudokuSolved, List.all_eq_true, Bool.not_eq_true', beq_eq_false_iff_ne, ne_eq,
    NoEmpty]
  constructor
  · intro h r c
    exact h (r, c) (mem_allCells _)
  · intro h p _
    exact h p.1 p.2

/-- A grid without `EMPTY` cell, with cells in range and no repeated digit, is solved. -/
theorem solved_of_noEmpty {grid : Grid} (hr : CellsInRange grid) (hv : ValidPartial grid)
    (hn : NoEmpty grid) : Solved grid := by
  rw [solved_iff]
  refine ⟨fun r c => ?_, fun row col r c hp => hv row col r c hp (hn row col)⟩
  have h1 := hr r c
  have h2 := hn r c
  simp only [EMPTY] at h2
  omega

theorem cellsInRange_setCell {grid : Grid} (hr : CellsInRange grid) (row col : Fin 9)
    {d : Int} (hd : 0 ≤ d ∧ d ≤ 9) : CellsInRange (setCell grid row col d) := by
  intro r c
  by_cases hrc : r = row ∧ c = col
  · obtain ⟨rfl, rfl⟩ := hrc
    rw [setCell_same]
    exact hd
  · rw [setCell_other _ _ _ _ _ _ hrc]
    exact hr r c

/-- A generated puzzle has cells in range and no repeated digit. -/
theorem generateSudoku_valid {difficulty : Difficulty} {picks : List (Fin 9 × Fin 9)}
    {grid : Grid} (h : generateSudoku difficulty picks = some grid) :
    CellsInRange grid ∧ ValidPartial grid := by
  obtain ⟨full, hrun, hsolved⟩ := solveSudoku_emptyGrid
  rw [generateSudoku_eq hrun] at h
  have hkeep := (removeCells_spec picks _ full grid h).2
  obtain ⟨hrange, hpeer⟩ := (solved_iff full).1 hsolved
  constructor
  · intro r c
    by_cases h0 : grid r c = EMPTY
    · rw [h0]; simp [EMPTY]
    · rw [hkeep r c h0]
      have := hrange r c
      omega
  · intro row col r c hp h0 heq
    have hr0 : grid r c ≠ EMPTY := by rw [heq]; exact h0
    rw [hkeep r c hr0, hkeep row col h0] at heq
    exact hpeer row col r c hp heq

theorem gameStep_invariant (st : GameState) (row col num : Int) (hintRequested : Bool)
    (hinv : GameInvariant st) (hrunning : st.won = false) :
    GameInvariant (gameStep st row col num hintRequested) := by
  obtain ⟨hg, hp, hw⟩ := hinv
  have hsame : GameInvariant st := ⟨hg, hp, hw⟩
  unfold gameStep
  split
  · exact hsame
  · split
    · exact ⟨hp, hp, fun h => by simp [hrunning] at h⟩
    · split
      · rename_i hidx
        split
        · rename_i hmove
          split
          · rename_i hcan
            refine ⟨⟨cellsInRange_setCell hg.1 _ _ ⟨by omega, hmove.2.1⟩,
              validPartial_setCell hg.2 hcan⟩, hg, fun h => h⟩
          · exact hsame
        · exact hsame
      · exact hsame

theorem reachable_invariant {st : GameState} (h : Reachable st) : GameInvariant st := by
  induction h with
  | start difficulty picks grid hgen =>
    have hvalid := generateSudoku_valid hgen
    exact ⟨hvalid, hvalid, fun h => by simp at h⟩
  | step st row col num hintRequested _ hrunning ih =>
    exact gameStep_invariant st row col num hintRequested ih hrunning

/-- C17: every grid the game loop can reach has no digit twice in any row, column or box;
so whenever `isSudokuSolved` returns true on it, and in particular when the loop has been
left with the congratulation, every row, column and box is a permutation of `1..9`. -/
theorem reachable_grid_valid (st : GameState) (h : Reachable st) :
    ValidPartial st.grid ∧
    (isSudokuSolved st.grid = true → Solved st.grid) ∧
    (st.won = true → Solved st.grid) := by
  obtain ⟨hg, _, hw⟩ := reachable_invariant h
  have hsolved : isSudokuSolved st.grid = true → Solved st.grid :=
    fun hs => solved_of_noEmpty hg.1 hg.2 ((isSudokuSolved_iff _).1 hs)
  exact ⟨hg.2, hsolved, fun hwon => hsolved (hw hwon)⟩

/-- C17 at the state after one pass of the loop, with the input `1 1 1` (row 0, column 0,
digit 1), on a puzzle generated at difficulty `EASY`. -/
theorem reachable_grid_valid_witness :
    ∃ grid, generateSudoku .EASY easyPicks = some grid ∧
      Reachable (gameStep ⟨grid, grid, 0, false⟩ 0 0 1 false) ∧
      ValidPartial (gameStep ⟨grid, grid, 0, false⟩ 0 0 1 false).grid :=
  generateSudoku_easyPicks.elim fun grid hgen =>
    have hreach : Reachable (gameStep ⟨grid, grid, 0, false⟩ 0 0 1 false) :=
      Reachable.step _ 0 0 1 false (Reachable.start .EASY easyPicks grid hgen) rfl
    ⟨grid, hgen, hreach, (reachable_grid_valid _ hreach).1⟩

end Sudoku
